import Mathlib

/-!
# Shiba runtime: the symbol demangler

A shallow embedding of `src/Runtime/demangle.cpp` and of the `demangle`
wrapper and `print_stacktrace` of `src/Runtime/runtime.cpp`.

* A `std::string` is a `List Char` (`Str`).  `str.front()` is `front`,
  `str.erase(0, n)` is `List.drop n`, `str.substr(0, n)` is `List.take n`,
  `out += s` is `out ++ s`.
* A C++ function `bool f(std::string &str, std::string &out)` becomes a function
  from the two strings on entry to an `Outcome`: the returned `bool` together
  with the two strings as the call leaves them, or the way the call ended
  without returning.
* A `char` is a `Char`; the characters of a `std::string` are those below 256, and
  nothing in the model depends on that bound.
* `int` is `Int` reduced into the 32-bit two's complement range, `long` is
  clamped to 64 bits the way `strtol` does, `size_t` is a 64-bit unsigned.
* `readType` is recursive and loops: its model `readTypeFuel` takes a recursion
  budget, and `readType` runs it with the budget `str.size() + 1`.
-/

namespace shiba

/-- A `std::string`, as the list of its characters. -/
abbrev Str := List Char

/-- The ways a call can end without returning to its caller. -/
inductive Halt where
  /-- a C++ exception (`std::length_error` from `std::string(num, '*')`) escapes -/
  | raised
  /-- `assert` fails and calls `abort()` -/
  | aborted
  /-- undefined behaviour that stops the call (a `std::string` built from a null
  pointer): in practice an exception or a crash -/
  | undefined
  /-- the recursion budget of the model ran out -/
  | exhausted
  deriving DecidableEq, Repr

/-- The result of a call `f(str, val)`: either it returns `ok` and leaves the cursor
`str` and the accumulated value `val`, or it does not return. -/
inductive Outcome (α : Type) where
  | ret (ok : Bool) (str : Str) (val : α)
  | halt (h : Halt)
  deriving DecidableEq, Repr

/-- `str.front()`; on an empty string this reads the terminating NUL. -/
def front (str : Str) : Char := str.headD (Char.ofNat 0)

/-! ## The C library pieces used by `readNum` -/

/-- `isspace` in the "C" locale: space, `\t`, `\n`, `\v`, `\f`, `\r`. -/
def isSpace (c : Char) : Bool := c.toNat = 32 || (9 ≤ c.toNat && c.toNat ≤ 13)

/-- The value of a run of decimal digits, most significant first. -/
def digitsVal (ds : Str) : Nat := ds.foldl (fun acc c => 10 * acc + (c.toNat - 48)) 0

/-- The `long` that `strtol` returns for a sign and a magnitude: out-of-range values
are clamped to `LONG_MIN = -2^63` and `LONG_MAX = 2^63 - 1`. -/
def clampLong (neg : Bool) (v : Nat) : Int :=
  if neg then (if 2 ^ 63 < v then -(2 ^ 63 : Int) else -(v : Int))
  else (if 2 ^ 63 - 1 < v then (2 ^ 63 - 1 : Int) else (v : Int))

/-- `strtol(start, &end, 10)`: skips white space, takes an optional sign and then the
longest run of decimal digits.  Returns `(end - start, value)`; when there is no digit
no conversion is performed and `end == start`. -/
def strtol (s : Str) : Nat × Int :=
  let ws := s.takeWhile isSpace
  let s1 := s.dropWhile isSpace
  let sgn := if front s1 = '-' ∨ front s1 = '+' then 1 else 0
  let ds := (s1.drop sgn).takeWhile Char.isDigit
  if ds = [] then (0, 0)
  else (ws.length + sgn + ds.length, clampLong (decide (front s1 = '-')) (digitsVal ds))

/-- The cast `(int)` of a `long`: reduction modulo `2^32` into `[-2^31, 2^31)`. -/
def toInt32 (z : Int) : Int := (z + 2 ^ 31) % 2 ^ 32 - 2 ^ 31

/-- The conversion of an `int` to `size_t` (in `str.size() < num`, `substr`, `erase`). -/
def toSizeT (z : Int) : Nat := (z % 2 ^ 64).toNat

/-- Decimal rendering of a natural number. -/
def decimal (n : Nat) : Str := Nat.toDigits 10 n

/-- `std::to_string(int)`. -/
def toStdString (z : Int) : Str :=
  if z < 0 then '-' :: decimal z.natAbs else decimal z.natAbs

/-! ## demangle.cpp -/

/-- `bool readNum(std::string &str, int &out)` (demangle.cpp 13-23). -/
def readNum (str : Str) (out : Int) : Bool × Str × Int :=
  let r := strtol str
  if r.1 = 0 then (false, str, out)
  else (true, str.drop r.1, toInt32 r.2)

/-- `bool readName(std::string &str, std::string &out)` (demangle.cpp 25-38). -/
def readName (str : Str) (out : Str) : Bool × Str × Str :=
  match readNum str 0 with
  | (false, str, _) => (false, str, out)
  | (true, str, num) =>
    if str.length < toSizeT num then (false, str, out)
    else (true, str.drop (toSizeT num), out ++ str.take (toSizeT num))

/-- The loops `for (i = 0; i < names.size(); ++i) { out += names[i];
if (i < names.size() - 1) out += ", "; }` of demangle.cpp 66-71, 88-93, 225-230. -/
def appendJoined : Str → List Str → Str
  | out, [] => out
  | out, [a] => out ++ a
  | out, a :: b :: rest => appendJoined (out ++ a ++ [',', ' ']) (b :: rest)

/-- The pointer prefix of `readType` (demangle.cpp 41-52).  `ret true` means that
control reaches line 54, with the cursor and output given. -/
def pointerPrefix (str : Str) (out : Str) : Outcome Str :=
  if front str = 'P' then
    match readNum (str.drop 1) 0 with
    | (false, str, _) => .ret false str out
    | (true, str, num) =>
      if num < 0 then .halt .raised
      else
        let out := out ++ List.replicate num.toNat '*'
        if front str ≠ 'T' then .ret false str out
        else .ret true (str.drop 1) out
  else .ret true str out

/-- The `switch` of the scalar branch of `readType` (demangle.cpp 97-132), entered
after the `s` has been erased. -/
def scalarCode (str : Str) (out : Str) : Outcome Str :=
  if front str = 'i' then
    let str := str.drop 1
    let out := out ++ "Int".toList
    match readNum str 0 with
    | (true, str, num) => .ret true str (out ++ toStdString num)
    | (false, str, _) => .ret true str out
  else if front str = 'I' then .ret true (str.drop 1) (out ++ "Int".toList)
  else if front str = 'f' then .ret true (str.drop 1) (out ++ "Float".toList)
  else if front str = 'd' then .ret true (str.drop 1) (out ++ "Double".toList)
  else if front str = 'F' then .ret true (str.drop 1) (out ++ "Float80".toList)
  else if front str = 'b' then .ret true (str.drop 1) (out ++ "Bool".toList)
  else if front str = 'v' then .ret true (str.drop 1) (out ++ "Void".toList)
  else .ret false str out

/-- The loops `while (str.front() != stop) { std::string name;
if (!readType(str, name)) return false; names.push_back(name); }` of demangle.cpp
58-64 (`stop = 'R'`) and 80-86 (`stop = 'T'`); `rd` is `readType`.  The first
argument bounds the number of iterations. -/
def typeLoop (rd : Str → Str → Outcome Str) (stop : Char) :
    Nat → Str → List Str → Outcome (List Str)
  | 0, _, _ => .halt .exhausted
  | n + 1, str, names =>
    if front str ≠ stop then
      match rd str [] with
      | .ret true str name => typeLoop rd stop n str (names ++ [name])
      | .ret false str _ => .ret false str names
      | .halt h => .halt h
    else .ret true str names

/-- Lines 54-138 of `readType`: the dispatch on `F`, `t`, `s` or a name.  `rd` is the
recursive `readType` and `n` bounds the loops. -/
def readTypeBody (rd : Str → Str → Outcome Str) (n : Nat) (str : Str) (out : Str) :
    Outcome Str :=
  if front str = 'F' then
    let str := str.drop 1
    let out := out ++ ['(']
    match typeLoop rd 'R' n str [] with
    | .halt h => .halt h
    | .ret false str _ => .ret false str out
    | .ret true str argNames =>
      let str := str.drop 1
      let out := appendJoined out argNames
      let out := out ++ ") -> ".toList
      rd str out
  else if front str = 't' then
    let str := str.drop 1
    let out := out ++ ['(']
    match typeLoop rd 'T' n str [] with
    | .halt h => .halt h
    | .ret false str _ => .ret false str out
    | .ret true str fieldNames =>
      let str := str.drop 1
      let out := appendJoined out fieldNames
      .ret true str (out ++ [')'])
  else if front str = 's' then
    scalarCode (str.drop 1) out
  else
    match readName str out with
    | (ok, str, out) => .ret ok str out

/-- `readType` with a recursion budget: `bool readType(std::string &str,
std::string &out)` (demangle.cpp 40-139). -/
def readTypeFuel : Nat → Str → Str → Outcome Str
  | 0, _, _ => .halt .exhausted
  | fuel + 1, str, out =>
    match pointerPrefix str out with
    | .halt h => .halt h
    | .ret false str out => .ret false str out
    | .ret true str out => readTypeBody (readTypeFuel fuel) fuel str out

/-- `bool readType(std::string &str, std::string &out)`: the budget `str.size() + 1`
is never used up (every successful read consumes a character). -/
def readType (str : Str) (out : Str) : Outcome Str :=
  readTypeFuel (str.length + 1) str out

/-- `bool readArg(std::string &str, std::string &out)` (demangle.cpp 141-174). -/
def readArg (str : Str) (out : Str) : Outcome Str :=
  let labels : Bool × Bool × Str × Str :=
    if front str = 'S' then (true, true, str.drop 1, [])
    else if front str = 'E' then
      match readName (str.drop 1) [] with
      | (ok, str, ext) => (ok, false, str, ext)
    else (true, false, str, [])
  match labels with
  | (false, _, str, _) => .ret false str out
  | (true, isSingleName, str, ext) =>
    match readName str [] with
    | (false, str, _) => .ret false str out
    | (true, str, internal) =>
      match readType str [] with
      | .halt h => .halt h
      | .ret false str _ => .ret false str out
      | .ret true str type =>
        let out :=
          if !isSingleName then
            out ++ ((if ext.isEmpty then ['_'] else ext) ++ [' '])
          else out
        .ret true str (out ++ (internal ++ [':', ' ']) ++ type)

/-- `bool demangleType(std::string &symbol, std::string &out)` (demangle.cpp 176-179). -/
def demangleType (symbol : Str) (out : Str) : Outcome Str :=
  readType (symbol.drop 1) out

/-- `bool demangleClosure(std::string &symbol, std::string &out)` (demangle.cpp
181-184).  `ndebug` tells whether the translation unit is compiled with `NDEBUG`,
which turns `assert` into a no-op. -/
def demangleClosure (ndebug : Bool) (symbol : Str) (out : Str) : Outcome Str :=
  if ndebug then .ret false symbol out else .halt .aborted

/-- The loop `while (symbol.front() != '_') { std::string arg;
if (!readArg(symbol, arg)) return false; args.push_back(arg); }` of demangle.cpp
217-223.  The first argument bounds the number of iterations. -/
def argLoop : Nat → Str → List Str → Outcome (List Str)
  | 0, _, _ => .halt .exhausted
  | n + 1, symbol, args =>
    if front symbol ≠ '_' then
      match readArg symbol [] with
      | .ret true symbol arg => argLoop n symbol (args ++ [arg])
      | .ret false symbol _ => .ret false symbol args
      | .halt h => .halt h
    else .ret true symbol args

/-- The name-construction rules of `demangleFunction` other than `D`
(demangle.cpp 195-214). -/
def functionName (symbol : Str) (out : Str) : Outcome Str :=
  if front symbol = 'M' then
    match readType (symbol.drop 1) out with
    | .halt h => .halt h
    | .ret false symbol out => .ret false symbol out
    | .ret true symbol out =>
      match readName symbol (out ++ ['.']) with
      | (ok, symbol, out) => .ret ok symbol out
  else if front symbol = 'I' then
    match readType (symbol.drop 1) out with
    | .halt h => .halt h
    | .ret false symbol out => .ret false symbol out
    | .ret true symbol out => .ret true symbol (out ++ ".init".toList)
  else
    match readName symbol out with
    | (ok, symbol, out) => .ret ok symbol out

/-- The optional return type and closure suffix of `demangleFunction`
(demangle.cpp 232-243). -/
def functionSuffix (symbol : Str) (out : Str) : Outcome Str :=
  let r : Outcome Str :=
    if front symbol = 'R' then
      match readType (symbol.drop 1) [] with
      | .halt h => .halt h
      | .ret false symbol _ => .ret false symbol out
      | .ret true symbol type => .ret true symbol (out ++ (" -> ".toList ++ type))
    else .ret true symbol out
  match r with
  | .halt h => .halt h
  | .ret false symbol out => .ret false symbol out
  | .ret true symbol out =>
    if front symbol = 'C' then .ret true (symbol.drop 1) (out ++ " (closure #1)".toList)
    else .ret true symbol out

/-- `bool demangleFunction(std::string &symbol, std::string &out)` (demangle.cpp
186-246). -/
def demangleFunction (symbol : Str) (out : Str) : Outcome Str :=
  let symbol := symbol.drop 1
  if front symbol = 'D' then
    match readType (symbol.drop 1) out with
    | .halt h => .halt h
    | .ret false symbol out => .ret false symbol out
    | .ret true symbol out => .ret true symbol (out ++ ".deinit".toList)
  else
    match functionName symbol out with
    | .halt h => .halt h
    | .ret false symbol out => .ret false symbol out
    | .ret true symbol out =>
      let out := out ++ ['(']
      match argLoop (symbol.length + 1) symbol [] with
      | .halt h => .halt h
      | .ret false symbol _ => .ret false symbol out
      | .ret true symbol args =>
        let symbol := symbol.drop 1
        let out := appendJoined out args
        functionSuffix symbol (out ++ [')'])

/-- `bool demangle(std::string &symbol, std::string &out)` (demangle.cpp 248-262). -/
def demangle (ndebug : Bool) (symbol : Str) (out : Str) : Outcome Str :=
  if symbol.take 2 ≠ ['_', 'W'] then .ret false symbol out
  else
    let symbol := symbol.drop 2
    if front symbol = 'C' then demangleClosure ndebug symbol out
    else if front symbol = 'F' then demangleFunction symbol out
    else if front symbol = 'T' then demangleType symbol out
    else .ret false symbol out

/-! ## runtime.cpp -/

namespace Runtime

/-- The bytes of `symbol.c_str()` as a C string: up to the first NUL. -/
def cStr (symbol : Str) : Str := symbol.takeWhile (fun c => c != Char.ofNat 0)

/-- `std::string demangle(std::string symbol)` (runtime.cpp 22-37).  `cxaDemangle` is
`abi::__cxa_demangle`, the generic demangler of the platform: `none` is its null
result. -/
def demangle (ndebug : Bool) (cxaDemangle : Str → Option Str) (symbol : Str) :
    Except Halt Str :=
  match shiba.demangle ndebug symbol [] with
  | .halt h => .error h
  | .ret true _ out => .ok out
  | .ret false symbol _ =>
    match cxaDemangle (cStr symbol) with
    | some result => .ok result
    | none => .ok symbol

end Runtime

/-! ## The type grammar of the specification (spec §4.3) -/

/-- The scalar codes other than `i`: `I`, `f`, `d`, `F`, `b`, `v`. -/
inductive Scalar where
  | int | float | double | float80 | bool | void
  deriving DecidableEq, Repr

/-- The code character of a scalar. -/
def Scalar.code : Scalar → Char
  | .int => 'I' | .float => 'f' | .double => 'd' | .float80 => 'F' | .bool => 'b' | .void => 'v'

/-- The documented rendering of a scalar. -/
def Scalar.render : Scalar → Str
  | .int => "Int".toList | .float => "Float".toList | .double => "Double".toList
  | .float80 => "Float80".toList | .bool => "Bool".toList | .void => "Void".toList

/-- The type expressions of the grammar of spec §4.3: a scalar code, `si` with or
without a decimal integer, a length-prefixed nominal name, `P<count>T` decorating a
type, `F{type}*R<type>` and `t{type}*T`. -/
inductive TypeExpr where
  | scalar (c : Scalar)
  | sized (width : Option Nat)
  | named (name : Str)
  | pointer (count : Nat) (pointee : TypeExpr)
  | function (params : List TypeExpr) (result : TypeExpr)
  | tuple (fields : List TypeExpr)

namespace TypeExpr

mutual
/-- The encoding of a type expression, following the grammar column of spec §4.3. -/
def encode : TypeExpr → Str
  | .scalar c => ['s', c.code]
  | .sized none => ['s', 'i']
  | .sized (some k) => 's' :: 'i' :: decimal k
  | .named name => decimal name.length ++ name
  | .pointer count t => 'P' :: (decimal count ++ 'T' :: encode t)
  | .function params result => 'F' :: (encodeList params ++ 'R' :: encode result)
  | .tuple fields => 't' :: (encodeList fields ++ ['T'])
/-- The encodings of a sequence of type expressions, one after the other. -/
def encodeList : List TypeExpr → Str
  | [] => []
  | t :: ts => encode t ++ encodeList ts
end

mutual
/-- The rendering of a type expression, following the rendering column of spec §4.3. -/
def render : TypeExpr → Str
  | .scalar c => c.render
  | .sized none => "Int".toList
  | .sized (some k) => "Int".toList ++ decimal k
  | .named name => name
  | .pointer count t => List.replicate count '*' ++ render t
  | .function params result =>
    "(".toList ++ ", ".toList.intercalate (renderList params) ++ ") -> ".toList ++ render result
  | .tuple fields => "(".toList ++ ", ".toList.intercalate (renderList fields) ++ ")".toList
/-- The renderings of a sequence of type expressions. -/
def renderList : List TypeExpr → List Str
  | [] => []
  | t :: ts => render t :: renderList ts
end

/-- The encoding ends with an integer that a digit after it would extend: `si`, with or
without digits, and the length prefix `0` of an empty name, also as the last part of a
pointer or function type. -/
def endsWithNumber : TypeExpr → Bool
  | .sized _ => true
  | .named name => name.isEmpty
  | .pointer _ t => endsWithNumber t
  | .function _ result => endsWithNumber result
  | _ => false

/-- A nominal name: its encoding begins with a digit. -/
def isNamed : TypeExpr → Bool
  | .named _ => true
  | _ => false

/-- A pointer type. -/
def isPointer : TypeExpr → Bool
  | .pointer _ _ => true
  | _ => false

mutual
/-- The type expressions whose encoding the decoder reads back: integers, counts and
name lengths are below `2^31`, a name does not begin with a digit, the type a pointer
marker decorates is not itself a pointer, and in a sequence no type whose encoding ends
with an integer is directly followed by a nominal name. -/
def readable : TypeExpr → Bool
  | .scalar _ => true
  | .sized none => true
  | .sized (some k) => decide (k < 2 ^ 31)
  | .named name => decide (name.length < 2 ^ 31) && !(front name).isDigit
  | .pointer count t => decide (count < 2 ^ 31) && !isPointer t && readable t
  | .function params result => readableList params && readable result
  | .tuple fields => readableList fields
/-- The sequences of readable type expressions. -/
def readableList : List TypeExpr → Bool
  | [] => true
  | t :: ts =>
    readable t && !(endsWithNumber t && (ts.head?.map isNamed).getD false) && readableList ts
end

end TypeExpr

/-! ## Auxiliary notions for the statements -/

/-- The outcome of a call entered with the output `pre ++ out`, given its outcome when
entered with `out`: the readers only ever append to their output. -/
def Outcome.prepend (pre : Str) : Outcome Str → Outcome Str
  | .ret ok str out => .ret ok str (pre ++ out)
  | .halt h => .halt h

/-! ## runtime.cpp: the stack trace -/

namespace Runtime

/-- `MAX_STACK_DEPTH` (runtime.cpp 20). -/
def MAX_STACK_DEPTH : Nat := 256

/-- The fields of `Dl_info` that `print_stacktrace` reads, as `dladdr` fills them:
`dli_fname`, `dli_sname` and `dli_saddr`.  `sname = none` is a null `dli_sname`: the
address lies in a loaded module but no symbol of the module matches it. -/
structure DlInfo where
  fname : Str
  sname : Option Str
  saddr : Int
  deriving DecidableEq

/-- The arguments of the `fprintf` of `print_stacktrace` (runtime.cpp 53-55): one line
of the trace. -/
structure FrameLine where
  index : Nat
  base : Str
  saddr : Int
  symbol : Str
  offset : Int
  deriving DecidableEq

/-- What `print_stacktrace` has done when it stops: the frame lines it has written after
the header, and `none` when it returned or the way it stopped otherwise. -/
structure Trace where
  lines : List FrameLine
  halted : Option Halt
  deriving DecidableEq

/-- The loop of `print_stacktrace` (runtime.cpp 44-56) from the frame of index `i` on.
`dladdr a = none` stands for `dladdr` returning 0; `basename` is the function of
`libgen.h`. -/
def printFrames (ndebug : Bool) (cxaDemangle : Str → Option Str) (basename : Str → Str)
    (dladdr : Int → Option DlInfo) : Nat → List Int → Trace
  | _, [] => ⟨[], none⟩
  | i, addr :: rest =>
    match dladdr addr with
    | none => printFrames ndebug cxaDemangle basename dladdr (i + 1) rest
    | some handle =>
      match handle.sname with
      | none => ⟨[], some .undefined⟩
      | some sname =>
        match demangle ndebug cxaDemangle sname with
        | .error h => ⟨[], some h⟩
        | .ok symbol =>
          let t := printFrames ndebug cxaDemangle basename dladdr (i + 1) rest
          ⟨⟨i, basename handle.fname, handle.saddr, symbol, addr - handle.saddr⟩ :: t.lines,
            t.halted⟩

/-- `void print_stacktrace()` (runtime.cpp 39-57).  `stack` is the sequence of return
addresses of the call stack, newest first, of which `backtrace` stores at most
`MAX_STACK_DEPTH`. -/
def print_stacktrace (ndebug : Bool) (cxaDemangle : Str → Option Str) (basename : Str → Str)
    (dladdr : Int → Option DlInfo) (stack : List Int) : Trace :=
  printFrames ndebug cxaDemangle basename dladdr 0 (stack.take MAX_STACK_DEPTH)

end Runtime

/-! # Theorems -/

/-! ## Sentinel, closure marker, fallback chain -/

/-- C2: a text whose first two characters are not `_W` makes `demangle` return false
and leaves the cursor and the output exactly as they were on entry. -/
theorem demangle_missing_sentinel (ndebug : Bool) (symbol out : Str)
    (h : symbol.take 2 ≠ ['_', 'W']) :
    demangle ndebug symbol out = .ret false symbol out := by
  simp [demangle, h]

theorem demangle_missing_sentinel_witness :
    demangle true [] "abc".toList = .ret false [] "abc".toList
      ∧ demangle false ['_'] [] = .ret false ['_'] []
      ∧ demangle true "_Z3foov".toList [] = .ret false "_Z3foov".toList [] :=
  ⟨demangle_missing_sentinel true [] _ (by decide),
   demangle_missing_sentinel false ['_'] [] (by decide),
   demangle_missing_sentinel true _ [] (by decide)⟩

/-- C3 (as stated, refuted): compiled with assertions enabled, decoding `_WC` does not
return the failure indicator: `demangleClosure` stops at its `assert(false)`. -/
theorem demangle_closure_aborts :
    demangle false "_WC".toList [] = .halt .aborted
      ∧ ¬ ∃ str out, demangle false "_WC".toList [] = .ret false str out := by
  refine ⟨by decide, ?_⟩
  rintro ⟨str, out, h⟩
  have h2 : demangle false "_WC".toList [] = .halt .aborted := by decide
  rw [h2] at h
  cases h

/-- C3 (amended): compiled with `NDEBUG`, decoding `_WC` followed by any text returns
false, appends nothing to the output and leaves the cursor at the closure marker;
compiled with assertions enabled it aborts instead of returning. -/
theorem demangle_closure (rest out : Str) :
    demangle true ("_WC".toList ++ rest) out = .ret false ('C' :: rest) out
      ∧ demangle false ("_WC".toList ++ rest) out = .halt .aborted := by
  simp [demangle, demangleClosure, front]

/-- C5 (the code at the failing input): with a generic demangler that fails, the
wrapper given `_WF3foo` returns the empty text, what the failed primary decoder left of
its by-reference argument, and not the raw symbol `_WF3foo`. -/
theorem runtime_demangle_returns_consumed_symbol (ndebug : Bool) :
    Runtime.demangle ndebug (fun _ => none) "_WF3foo".toList = .ok []
      ∧ demangle ndebug "_WF3foo".toList [] = .ret false [] "foo(".toList := by
  cases ndebug <;> exact ⟨rfl, by decide⟩

/-- C4 (the code at the failing input): the declared length 4294967297 wraps to 1 in
the cast to `int`, so `readName` succeeds on `4294967297a` and appends `a`. -/
theorem readName_length_wraps :
    readName "4294967297a".toList [] = (true, [], ['a']) := by
  decide

/-! ## Decimal literals and `strtol` -/

theorem digitChar_spec : ∀ m, m < 10 →
    (Nat.digitChar m).isDigit = true ∧ (Nat.digitChar m).toNat - 48 = m := by
  decide

theorem digitsVal_snoc (l : Str) (d : Char) :
    digitsVal (l ++ [d]) = 10 * digitsVal l + (d.toNat - 48) := by
  simp [digitsVal, List.foldl_append]

theorem toDigitsCore_spec (fuel : Nat) : ∀ (n : Nat) (ds : Str), n < fuel →
    ∃ l, Nat.toDigitsCore 10 fuel n ds = l ++ ds ∧ l ≠ [] ∧
      (∀ c ∈ l, c.isDigit = true) ∧ digitsVal l = n := by
  induction fuel with
  | zero => intro n ds h; omega
  | succ f ih =>
    intro n ds h
    have hd := digitChar_spec (n % 10) (Nat.mod_lt _ (by decide))
    simp only [Nat.toDigitsCore]
    split
    · rename_i h0
      refine ⟨[Nat.digitChar (n % 10)], by simp, by simp, ?_, ?_⟩
      · intro c hc
        simp at hc
        rw [hc]; exact hd.1
      · simp [digitsVal, hd.2]
        omega
    · rename_i h0
      obtain ⟨l, hl, hne, hdig, hval⟩ := ih (n / 10) (Nat.digitChar (n % 10) :: ds) (by omega)
      refine ⟨l ++ [Nat.digitChar (n % 10)], by simp [hl], by simp, ?_, ?_⟩
      · intro c hc
        rcases List.mem_append.mp hc with hc | hc
        · exact hdig c hc
        · simp at hc
          rw [hc]; exact hd.1
      · rw [digitsVal_snoc, hval, hd.2]
        omega

theorem decimal_ne_nil (n : Nat) : decimal n ≠ [] := by
  obtain ⟨l, hl, hne, -, -⟩ := toDigitsCore_spec (n + 1) n [] (by omega)
  simp only [decimal, Nat.toDigits, hl, List.append_nil]
  exact hne

theorem decimal_isDigit (n : Nat) : ∀ c ∈ decimal n, c.isDigit = true := by
  obtain ⟨l, hl, -, hdig, -⟩ := toDigitsCore_spec (n + 1) n [] (by omega)
  simp only [decimal, Nat.toDigits, hl, List.append_nil]
  exact hdig

theorem digitsVal_decimal (n : Nat) : digitsVal (decimal n) = n := by
  obtain ⟨l, hl, -, -, hval⟩ := toDigitsCore_spec (n + 1) n [] (by omega)
  simp only [decimal, Nat.toDigits, hl, List.append_nil]
  exact hval

/-- A decimal digit is neither white space nor a sign nor a marker of the grammar. -/
theorem isDigit_facts (c : Char) (h : c.isDigit = true) :
    isSpace c = false ∧ c ≠ '-' ∧ c ≠ '+' := by
  refine ⟨?_, ?_, ?_⟩
  · simp only [Char.isDigit, Bool.and_eq_true, decide_eq_true_eq] at h
    have h1 : 48 ≤ c.toNat := h.1
    simp [isSpace]
    omega
  · rintro rfl; simp at h
  · rintro rfl; simp at h

theorem front_cons (c : Char) (s : Str) : front (c :: s) = c := rfl

theorem front_append_of_ne_nil (a b : Str) (h : a ≠ []) : front (a ++ b) = front a := by
  cases a with
  | nil => exact absurd rfl h
  | cons c r => rfl

theorem front_decimal_isDigit (n : Nat) : (front (decimal n)).isDigit = true := by
  have hne := decimal_ne_nil n
  have hd := decimal_isDigit n
  cases h : decimal n with
  | nil => exact absurd h hne
  | cons c r =>
    rw [h] at hd
    exact hd c (by simp)

theorem takeWhile_append_of_all (p : Char → Bool) (l x : Str) (hl : ∀ c ∈ l, p c = true)
    (hx : p (front x) = false) : (l ++ x).takeWhile p = l := by
  induction l with
  | nil =>
    cases x with
    | nil => rfl
    | cons c r => simp [front] at hx; simp [List.takeWhile, hx]
  | cons a l ih =>
    have ha : p a = true := hl a (by simp)
    simp [List.takeWhile, ha]
    exact ih (fun c hc => hl c (by simp [hc]))

/-- `strtol` on a canonical decimal literal followed by a text that does not begin
with a digit consumes exactly the literal. -/
theorem strtol_decimal (n : Nat) (x : Str) (hx : (front x).isDigit = false) :
    strtol (decimal n ++ x) = ((decimal n).length, clampLong false n) := by
  have hne := decimal_ne_nil n
  have hd := decimal_isDigit n
  have htw := takeWhile_append_of_all Char.isDigit (decimal n) x hd hx
  have hval := digitsVal_decimal n
  cases h : decimal n with
  | nil => exact absurd h hne
  | cons c r =>
    rw [h] at hd htw hval
    have hc : c.isDigit = true := hd c (by simp)
    obtain ⟨h1, h2, h3⟩ := isDigit_facts c hc
    have e1 : ((c :: r) ++ x).takeWhile isSpace = [] := by simp [List.takeWhile, h1]
    have e2 : ((c :: r) ++ x).dropWhile isSpace = (c :: r) ++ x := by
      simp [List.dropWhile, h1]
    simp only [strtol, e1, e2]
    simp only [List.cons_append, front_cons, h2, h3, or_self, if_false, List.drop_zero]
    rw [← List.cons_append, htw]
    simp [hval]

theorem toInt32_of_lt (n : Nat) (h : n < 2 ^ 31) : toInt32 (clampLong false n) = n := by
  have : ¬ (2 ^ 63 - 1 < n) := by omega
  simp only [clampLong, toInt32]
  simp [this]
  omega

theorem readNum_decimal (n : Nat) (x : Str) (o : Int) (hn : n < 2 ^ 31)
    (hx : (front x).isDigit = false) :
    readNum (decimal n ++ x) o = (true, x, (n : Int)) := by
  have hne := decimal_ne_nil n
  have hlen : (decimal n).length ≠ 0 := by
    intro h; exact hne (List.length_eq_zero.mp h)
  simp [readNum, strtol_decimal n x hx, hlen, toInt32_of_lt n hn]

theorem toSizeT_natCast (n : Nat) (h : n < 2 ^ 31) : toSizeT (n : Int) = n := by
  simp only [toSizeT]
  omega

/-- `readName` on a length-prefixed name, when what follows the prefix does not begin
with a digit. -/
theorem readName_encoded (name x out : Str) (hlen : name.length < 2 ^ 31)
    (hx : (front (name ++ x)).isDigit = false) :
    readName (decimal name.length ++ (name ++ x)) out = (true, x, out ++ name) := by
  simp [readName, readNum_decimal name.length (name ++ x) 0 hlen hx,
    toSizeT_natCast name.length hlen]

/-! ## Scalar types -/

/-- When the cursor does not begin with `P`, `readType` is lines 54-138 of its code. -/
theorem readType_of_not_P (str out : Str) (h : front str ≠ 'P') :
    readType str out = readTypeBody (readTypeFuel str.length) str.length str out := by
  simp [readType, readTypeFuel, pointerPrefix, h]

/-- C8: `readType` on `s` followed by the code `I`, `f`, `d`, `F`, `b` or `v` and any
text `x` appends `Int`, `Float`, `Double`, `Float80`, `Bool` or `Void` and leaves
exactly `x`; on `s` followed by any character outside `i I f d F b v`, and on `s` alone,
it fails; `_WTsv` decodes to `Void`. -/
theorem readType_scalar (ndebug : Bool) (x out : Str) :
    readType ('s' :: 'I' :: x) out = .ret true x (out ++ "Int".toList)
      ∧ readType ('s' :: 'f' :: x) out = .ret true x (out ++ "Float".toList)
      ∧ readType ('s' :: 'd' :: x) out = .ret true x (out ++ "Double".toList)
      ∧ readType ('s' :: 'F' :: x) out = .ret true x (out ++ "Float80".toList)
      ∧ readType ('s' :: 'b' :: x) out = .ret true x (out ++ "Bool".toList)
      ∧ readType ('s' :: 'v' :: x) out = .ret true x (out ++ "Void".toList)
      ∧ (∀ c : Char, c ∉ ['i', 'I', 'f', 'd', 'F', 'b', 'v'] →
          readType ('s' :: c :: x) out = .ret false (c :: x) out)
      ∧ readType ['s'] out = .ret false [] out
      ∧ demangle ndebug "_WTsv".toList [] = .ret true [] "Void".toList := by
  refine ⟨?_, ?_, ?_, ?_, ?_, ?_, ?_, ?_, ?_⟩
  · simp [readType_of_not_P, front, readTypeBody, scalarCode]
  · simp [readType_of_not_P, front, readTypeBody, scalarCode]
  · simp [readType_of_not_P, front, readTypeBody, scalarCode]
  · simp [readType_of_not_P, front, readTypeBody, scalarCode]
  · simp [readType_of_not_P, front, readTypeBody, scalarCode]
  · simp [readType_of_not_P, front, readTypeBody, scalarCode]
  · intro c hc
    simp at hc
    simp [readType_of_not_P, front, readTypeBody, scalarCode, hc]
  · simp [readType_of_not_P, front, readTypeBody, scalarCode]
  · cases ndebug <;> decide

/-! ## Texts that do not begin with a number -/

/-- A decimal digit is none of the marker characters of the grammar. -/
theorem isDigit_ne_marker (c : Char) (h : c.isDigit = true) :
    c ≠ 'P' ∧ c ≠ 'F' ∧ c ≠ 't' ∧ c ≠ 's' ∧ c ≠ 'S' ∧ c ≠ 'E' ∧ c ≠ 'D' ∧ c ≠ 'M' ∧
      c ≠ 'I' ∧ c ≠ '_' ∧ c ≠ 'R' ∧ c ≠ 'T' ∧ c ≠ 'C' := by
  refine ⟨?_, ?_, ?_, ?_, ?_, ?_, ?_, ?_, ?_, ?_, ?_, ?_, ?_⟩ <;>
    (rintro rfl; simp at h)

/-- `strtol` converts nothing when the text begins with neither white space, a sign nor
a digit. -/
theorem strtol_of_front (x : Str) (h1 : isSpace (front x) = false) (h2 : front x ≠ '-')
    (h3 : front x ≠ '+') (h4 : (front x).isDigit = false) : strtol x = (0, 0) := by
  cases x with
  | nil => rfl
  | cons c r =>
    simp only [front_cons] at h1 h2 h3 h4
    have e1 : (c :: r).takeWhile isSpace = [] := by simp [List.takeWhile, h1]
    have e2 : (c :: r).dropWhile isSpace = c :: r := by simp [List.dropWhile, h1]
    simp only [strtol, e1, e2, front_cons, h2, h3, or_self, if_false, List.drop_zero]
    simp [List.takeWhile, h4]

theorem readNum_of_strtol_zero (x : Str) (o : Int) (h : (strtol x).1 = 0) :
    readNum x o = (false, x, o) := by
  simp [readNum, h]

/-- When `strtol` converts nothing the text does not begin with a digit. -/
theorem front_not_digit_of_strtol_zero (x : Str) (h : (strtol x).1 = 0) :
    (front x).isDigit = false := by
  cases x with
  | nil => rfl
  | cons c r =>
    by_contra hc
    have hc : c.isDigit = true := by simpa [front_cons] using hc
    obtain ⟨h1, h2, h3⟩ := isDigit_facts c hc
    have e1 : (c :: r).takeWhile isSpace = [] := by simp [List.takeWhile, h1]
    have e2 : (c :: r).dropWhile isSpace = c :: r := by simp [List.dropWhile, h1]
    simp only [strtol, e1, e2, front_cons, h2, h3, or_self, if_false, List.drop_zero] at h
    simp [List.takeWhile, hc] at h

theorem toStdString_natCast (n : Nat) : toStdString (n : Int) = decimal n := by
  simp [toStdString]

/-- `readType` on a length-prefixed nominal name. -/
theorem readType_named (name x out : Str) (hlen : name.length < 2 ^ 31)
    (hx : (front (name ++ x)).isDigit = false) :
    readType (decimal name.length ++ (name ++ x)) out = .ret true x (out ++ name) := by
  have hf : front (decimal name.length ++ (name ++ x)) = front (decimal name.length) :=
    front_append_of_ne_nil _ _ (decimal_ne_nil _)
  have hm := isDigit_ne_marker _ (front_decimal_isDigit name.length)
  rw [← hf] at hm
  rw [readType_of_not_P _ _ hm.1]
  simp [readTypeBody, hm.2.1, hm.2.2.1, hm.2.2.2.1, readName_encoded name x out hlen hx]

/-! ## Sized integers -/

/-- C9: for every `k < 2^31`, `_WTsi` followed by the canonical decimal of `k` decodes
to `Int` followed by that decimal, and `_WTsi` alone decodes to `Int`. -/
theorem demangle_sized_int (ndebug : Bool) (k : Nat) (hk : k < 2 ^ 31) :
    demangle ndebug ("_WTsi".toList ++ decimal k) [] = .ret true [] ("Int".toList ++ decimal k)
      ∧ demangle ndebug "_WTsi".toList [] = .ret true [] "Int".toList := by
  constructor
  · have h := readNum_decimal k [] 0 hk rfl
    simp only [List.append_nil] at h
    simp [demangle, demangleType, front, readType_of_not_P, readTypeBody, scalarCode, h,
      toStdString_natCast]
  · cases ndebug <;> decide

theorem demangle_sized_int_witness :
    (32 < 2 ^ 31) ∧
      (demangle true ("_WTsi".toList ++ decimal 32) [] = .ret true [] ("Int".toList ++ decimal 32)
        ∧ demangle true "_WTsi".toList [] = .ret true [] "Int".toList)
      ∧ "_WTsi".toList ++ decimal 32 = "_WTsi32".toList
      ∧ "Int".toList ++ decimal 32 = "Int32".toList :=
  ⟨by decide, demangle_sized_int true 32 (by decide), by decide, by decide⟩

/-! ## Arguments -/

/-- C10 (as stated, refuted): with the empty internal label and the nominal type `3Foo`,
which `readType` decodes to `Foo`, `readArg` on `S` `0` `3Foo` reads the length `03`,
takes `Foo` for the label and fails on the type. -/
theorem readArg_empty_label_fails :
    readType "3Foo".toList [] = .ret true [] "Foo".toList
      ∧ readArg ("S".toList ++ (decimal ([] : Str).length ++ ([] ++ "3Foo".toList))) []
          = .ret false [] []
      ∧ readArg ("S".toList ++ (decimal ([] : Str).length ++ ([] ++ "3Foo".toList))) []
          ≠ .ret true [] ([] ++ ([] ++ ": ".toList ++ "Foo".toList)) := by
  decide

/-- `readArg` after the marker `S`: the internal label alone is rendered. -/
theorem readArg_single (i t rest r out : Str) (hi : i.length < 2 ^ 31)
    (hit : (front (i ++ t)).isDigit = false) (ht : readType t [] = .ret true rest r) :
    readArg ('S' :: (decimal i.length ++ (i ++ t))) out
      = .ret true rest (out ++ (i ++ ": ".toList ++ r)) := by
  have hin := readName_encoded i t [] hi hit
  simp [readArg, front, hin, ht]

/-- `readArg` after the marker `E` and an external label that is not empty. -/
theorem readArg_external (i e t rest r out : Str)
    (hi : i.length < 2 ^ 31) (he : e.length < 2 ^ 31) (he0 : e ≠ [])
    (hed : (front e).isDigit = false) (hit : (front (i ++ t)).isDigit = false)
    (ht : readType t [] = .ret true rest r) :
    readArg ('E' :: (decimal e.length ++ (e ++ (decimal i.length ++ (i ++ t))))) out
      = .ret true rest (out ++ (e ++ " ".toList ++ (i ++ ": ".toList ++ r))) := by
  have hin := readName_encoded i t [] hi hit
  have hfe : (front (e ++ (decimal i.length ++ (i ++ t)))).isDigit = false := by
    rw [front_append_of_ne_nil _ _ he0]; exact hed
  have hen := readName_encoded e (decimal i.length ++ (i ++ t)) [] he hfe
  simp [readArg, front, hen, hin, ht, he0]

/-- `readArg` without a marker: the external label is rendered `_`. -/
theorem readArg_default (i t rest r out : Str) (hi : i.length < 2 ^ 31)
    (hit : (front (i ++ t)).isDigit = false) (ht : readType t [] = .ret true rest r) :
    readArg (decimal i.length ++ (i ++ t)) out
      = .ret true rest (out ++ ("_ ".toList ++ (i ++ ": ".toList ++ r))) := by
  have hin := readName_encoded i t [] hi hit
  have hf : front (decimal i.length ++ (i ++ t)) = front (decimal i.length) :=
    front_append_of_ne_nil _ _ (decimal_ne_nil _)
  have hm := isDigit_ne_marker _ (front_decimal_isDigit i.length)
  rw [← hf] at hm
  simp [readArg, hm.2.2.2.2.1, hm.2.2.2.2.2.1, hin, ht]

/-- C10 (amended): for labels shorter than `2^31` characters, an external label `e` that
is not empty and does not begin with a digit, and an internal label `i` such that
`i ++ t` does not begin with a digit, where `readType` decodes `t` to `r`: `readArg`
appends `i: r` after `S`, `e i: r` after `E` and `_ i: r` without a marker. -/
theorem readArg_labels (i e t rest r out : Str)
    (hi : i.length < 2 ^ 31) (he : e.length < 2 ^ 31) (he0 : e ≠ [])
    (hed : (front e).isDigit = false) (hit : (front (i ++ t)).isDigit = false)
    (ht : readType t [] = .ret true rest r) :
    readArg ('S' :: (decimal i.length ++ (i ++ t))) out
        = .ret true rest (out ++ (i ++ ": ".toList ++ r))
      ∧ readArg ('E' :: (decimal e.length ++ (e ++ (decimal i.length ++ (i ++ t))))) out
        = .ret true rest (out ++ (e ++ " ".toList ++ (i ++ ": ".toList ++ r)))
      ∧ readArg (decimal i.length ++ (i ++ t)) out
        = .ret true rest (out ++ ("_ ".toList ++ (i ++ ": ".toList ++ r))) :=
  ⟨readArg_single i t rest r out hi hit ht,
   readArg_external i e t rest r out hi he he0 hed hit ht,
   readArg_default i t rest r out hi hit ht⟩

theorem readArg_labels_witness :
    readArg ('S' :: (decimal "x".toList.length ++ ("x".toList ++ "sv".toList))) []
        = .ret true [] ([] ++ ("x".toList ++ ": ".toList ++ "Void".toList))
      ∧ readArg ('E' :: (decimal "at".toList.length ++ ("at".toList ++
          (decimal "x".toList.length ++ ("x".toList ++ "sv".toList))))) []
        = .ret true [] ([] ++ ("at".toList ++ " ".toList ++ ("x".toList ++ ": ".toList ++ "Void".toList)))
      ∧ readArg (decimal "x".toList.length ++ ("x".toList ++ "sv".toList)) []
        = .ret true [] ([] ++ ("_ ".toList ++ ("x".toList ++ ": ".toList ++ "Void".toList))) :=
  readArg_labels "x".toList "at".toList "sv".toList [] "Void".toList []
    (by decide) (by decide) (by decide) (by decide) (by decide) (by decide)

/-! ## Functions and methods -/

theorem appendJoined_eq (out : Str) (names : List Str) :
    appendJoined out names = out ++ ", ".toList.intercalate names := by
  induction names generalizing out with
  | nil => simp [appendJoined, List.intercalate]
  | cons a l ih =>
    cases l with
    | nil => simp [appendJoined, List.intercalate]
    | cons b l =>
      rw [appendJoined, ih]
      simp [List.intercalate, List.intersperse]

theorem functionSuffix_nil (out : Str) : functionSuffix [] out = .ret true [] out := by
  simp [functionSuffix, front]

/-- C7 (as stated, refuted): with the empty owner name, `_WFM` `0` `3bar` `_` reads the
length `03`, takes `bar` for the owner and fails on the method name. -/
theorem demangle_empty_owner_fails :
    demangle true ("_WFM".toList ++ (decimal ([] : Str).length ++ ([] ++
        (decimal "bar".toList.length ++ ("bar".toList ++ "_".toList))))) []
      = .ret false "_".toList "bar.".toList := by
  decide

/-- C7 (amended): for an owner name `o` that is not empty and a method name `m`,
both shorter than `2^31` characters and neither beginning with a digit, `_WFM`,
the length-prefixed `o`, the length-prefixed `m` and `_` decode to `o.m()`. -/
theorem demangle_method (ndebug : Bool) (o m : Str)
    (ho : o.length < 2 ^ 31) (hm : m.length < 2 ^ 31) (ho0 : o ≠ [])
    (hod : (front o).isDigit = false) (hmd : (front m).isDigit = false) :
    demangle ndebug ("_WFM".toList ++ (decimal o.length ++ (o ++
        (decimal m.length ++ (m ++ "_".toList))))) []
      = .ret true [] (o ++ ".".toList ++ m ++ "()".toList) := by
  have hfo : (front (o ++ (decimal m.length ++ (m ++ ['_'])))).isDigit = false := by
    rw [front_append_of_ne_nil _ _ ho0]; exact hod
  have hfm : (front (m ++ ['_'])).isDigit = false := by
    cases m with
    | nil => rfl
    | cons c r => exact hmd
  have h1 := readType_named o (decimal m.length ++ (m ++ ['_'])) [] ho hfo
  have h2 := readName_encoded m ['_'] ([] ++ o ++ ['.']) hm hfm
  simp only [List.nil_append] at h1 h2
  simp [demangle, demangleFunction, functionName, front, h1, h2, argLoop, appendJoined,
    functionSuffix]

theorem demangle_method_witness :
    demangle true ("_WFM".toList ++ (decimal "Foo".toList.length ++ ("Foo".toList ++
        (decimal "bar".toList.length ++ ("bar".toList ++ "_".toList))))) []
      = .ret true [] ("Foo".toList ++ ".".toList ++ "bar".toList ++ "()".toList)
    ∧ "_WFM".toList ++ (decimal "Foo".toList.length ++ ("Foo".toList ++
        (decimal "bar".toList.length ++ ("bar".toList ++ "_".toList)))) = "_WFM3Foo3bar_".toList
    ∧ "Foo".toList ++ ".".toList ++ "bar".toList ++ "()".toList = "Foo.bar()".toList :=
  ⟨demangle_method true "Foo".toList "bar".toList (by decide) (by decide) (by decide)
    (by decide) (by decide), by decide, by decide⟩

theorem strtol_of_front_underscore (s : Str) (h : front s = '_') : strtol s = (0, 0) :=
  strtol_of_front s (by rw [h]; decide) (by rw [h]; decide) (by rw [h]; decide)
    (by rw [h]; decide)

/-- A text that `readArg` decodes does not begin with the terminator `_`. -/
theorem front_ne_underscore_of_readArg (s s' out r : Str)
    (h : readArg s out = .ret true s' r) : front s ≠ '_' := by
  intro hf
  have hn : readName s [] = (false, s, []) := by
    simp [readName, readNum_of_strtol_zero s 0 (by rw [strtol_of_front_underscore s hf])]
  simp [readArg, hf, hn] at h

theorem readArg_nil (out : Str) : readArg [] out = .ret false [] out := by
  have hn : readName [] [] = (false, [], []) := by decide
  simp [readArg, front, hn]

/-- The argument loop on the concatenation of encodings that `readArg` decodes, whatever
follows them, stopped by a text that begins with `_`. -/
theorem argLoop_encoded (args : List (Str × Str))
    (hargs : ∀ a ∈ args, ∀ x, readArg (a.1 ++ x) [] = .ret true x a.2) :
    ∀ (n : Nat) (acc : List Str) (x : Str), args.length < n → front x = '_' →
      argLoop n ((args.map Prod.fst).flatten ++ x) acc
        = .ret true x (acc ++ args.map Prod.snd) := by
  induction args with
  | nil =>
    intro n acc x hn hx
    obtain ⟨k, rfl⟩ : ∃ k, n = k + 1 := ⟨n - 1, by simp at hn; omega⟩
    simp [argLoop, hx]
  | cons a l ih =>
    intro n acc x hn hx
    obtain ⟨k, rfl⟩ : ∃ k, n = k + 1 := ⟨n - 1, by omega⟩
    have ha := hargs a (by simp) ((l.map Prod.fst).flatten ++ x)
    have hne := front_ne_underscore_of_readArg _ _ _ _ ha
    have ih' := ih (fun b hb => hargs b (by simp [hb])) k (acc ++ [a.2]) x
      (by simp at hn; omega) hx
    simp only [List.map_cons, List.flatten_cons, List.append_assoc]
    rw [argLoop]
    simp only [hne, ne_eq, not_false_eq_true, if_true, ha, ih']
    simp

theorem length_le_flatten_length (args : List (Str × Str)) (h : ∀ a ∈ args, a.1 ≠ []) :
    args.length ≤ (args.map Prod.fst).flatten.length := by
  induction args with
  | nil => simp
  | cons a l ih =>
    have h1 : a.1 ≠ [] := h a (by simp)
    have h2 : 0 < a.1.length := List.length_pos.mpr h1
    have h3 := ih (fun b hb => h b (by simp [hb]))
    simp only [List.map_cons, List.flatten_cons, List.length_cons, List.length_append]
    omega

/-- C6 (as stated, refuted): the encoding `1xsv` is decoded by `readArg` to `_ x: Void`
whatever follows it, yet with the empty function name `_WF` `0` `1xsv` `_` reads the
length `01`, takes `x` for the name and fails on the argument list. -/
theorem demangle_empty_name_fails :
    (∀ x, readArg ("1xsv".toList ++ x) [] = .ret true x "_ x: Void".toList)
      ∧ demangle true ("_WF".toList ++ (decimal ([] : Str).length ++ ([] ++
          ("1xsv".toList ++ "_".toList)))) [] = .ret false "sv_".toList "x(".toList := by
  refine ⟨?_, by decide⟩
  intro x
  have ht : readType ('s' :: 'v' :: x) [] = .ret true x "Void".toList := by
    simp [readType_of_not_P, front, readTypeBody, scalarCode]
  have h := readArg_default ['x'] ('s' :: 'v' :: x) x "Void".toList []
    (by decide) (by show ('x' : Char).isDigit = false; decide) ht
  have hd : decimal (['x'] : Str).length = ['1'] := by decide
  rw [hd] at h
  simpa using h

/-- C6 (amended): for a function name `n` shorter than `2^31` characters and argument
encodings `a_1 .. a_k` each decoded by `readArg` to `s_i` whatever follows it, where
the text after the length prefix (`n`, the encodings, `_`) does not begin with a digit,
`_WF`, the length-prefixed `n`, the encodings and `_` decode to `n(s_1, .., s_k)`. -/
theorem demangle_free_function (ndebug : Bool) (n : Str) (args : List (Str × Str))
    (hn : n.length < 2 ^ 31)
    (hnd : (front (n ++ ((args.map Prod.fst).flatten ++ ['_']))).isDigit = false)
    (hargs : ∀ a ∈ args, ∀ x, readArg (a.1 ++ x) [] = .ret true x a.2) :
    demangle ndebug ("_WF".toList ++ (decimal n.length ++ (n ++
        ((args.map Prod.fst).flatten ++ ['_'])))) []
      = .ret true [] (n ++ "(".toList ++ ", ".toList.intercalate (args.map Prod.snd)
          ++ ")".toList) := by
  have hf : front (decimal n.length ++ (n ++ ((args.map Prod.fst).flatten ++ ['_'])))
      = front (decimal n.length) := front_append_of_ne_nil _ _ (decimal_ne_nil _)
  have hm := isDigit_ne_marker _ (front_decimal_isDigit n.length)
  rw [← hf] at hm
  have h1 := readName_encoded n ((args.map Prod.fst).flatten ++ ['_']) [] hn hnd
  have hne : ∀ a ∈ args, a.1 ≠ [] := by
    intro a ha h0
    have := hargs a ha []
    rw [h0] at this
    simp [readArg_nil] at this
  have hlen := length_le_flatten_length args hne
  have h2 := argLoop_encoded args hargs (((args.map Prod.fst).flatten ++ ['_']).length + 1)
    [] ['_'] (by rw [List.length_append]; omega) rfl
  simp only [List.nil_append] at h1 h2
  have hdem : demangle ndebug ("_WF".toList ++ (decimal n.length ++ (n ++
        ((args.map Prod.fst).flatten ++ ['_'])))) []
      = demangleFunction ('F' :: (decimal n.length ++ (n ++
        ((args.map Prod.fst).flatten ++ ['_'])))) [] := by
    simp [demangle, front]
  rw [hdem]
  unfold demangleFunction
  simp only [List.drop_succ_cons, List.drop_zero]
  rw [if_neg hm.2.2.2.2.2.2.1]
  unfold functionName
  rw [if_neg hm.2.2.2.2.2.2.2.1, if_neg hm.2.2.2.2.2.2.2.2.1, h1]
  simp only []
  rw [h2]
  simp only [List.drop_succ_cons, List.drop_zero, functionSuffix_nil, appendJoined_eq,
    List.nil_append]
  simp

theorem demangle_free_function_witness :
    demangle true ("_WF".toList ++ (decimal "foo".toList.length ++ ("foo".toList ++
        ((([] : List (Str × Str)).map Prod.fst).flatten ++ ['_'])))) []
      = .ret true [] ("foo".toList ++ "(".toList
          ++ ", ".toList.intercalate (([] : List (Str × Str)).map Prod.snd) ++ ")".toList)
    ∧ "_WF".toList ++ (decimal "foo".toList.length ++ ("foo".toList ++
        ((([] : List (Str × Str)).map Prod.fst).flatten ++ ['_']))) = "_WF3foo_".toList
    ∧ "foo".toList ++ "(".toList
          ++ ", ".toList.intercalate (([] : List (Str × Str)).map Prod.snd) ++ ")".toList
        = "foo()".toList :=
  ⟨demangle_free_function true "foo".toList [] (by decide) (by decide)
    (fun a ha => absurd ha (List.not_mem_nil a)), by decide, by decide⟩

/-! ## The type grammar -/

theorem readTypeFuel_succ_of_not_P (fuel : Nat) (str out : Str) (h : front str ≠ 'P') :
    readTypeFuel (fuel + 1) str out = readTypeBody (readTypeFuel fuel) fuel str out := by
  simp [readTypeFuel, pointerPrefix, h]

/-- The pointer prefix `P<count>T` with a count below `2^31`. -/
theorem pointerPrefix_encoded (count : Nat) (y out : Str) (hc : count < 2 ^ 31) :
    pointerPrefix ('P' :: (decimal count ++ 'T' :: y)) out
      = .ret true y (out ++ List.replicate count '*') := by
  have h := readNum_decimal count ('T' :: y) 0 hc (by show ('T' : Char).isDigit = false; decide)
  simp [pointerPrefix, front, h]

/-- `strtol` converts nothing at a marker of the grammar. -/
theorem strtol_of_marker (x : Str)
    (h : front x = 's' ∨ front x = 'P' ∨ front x = 'F' ∨ front x = 't' ∨ front x = 'R'
      ∨ front x = 'T') : (strtol x).1 = 0 := by
  have : strtol x = (0, 0) := by
    rcases h with h | h | h | h | h | h <;>
      exact strtol_of_front x (by rw [h]; decide) (by rw [h]; decide) (by rw [h]; decide)
        (by rw [h]; decide)
  rw [this]

namespace TypeExpr

/-- The first character of an encoding: a digit for a nominal name, a marker otherwise. -/
theorem front_encode (e : TypeExpr) (y : Str) :
    (isNamed e = true ∧ (front (encode e ++ y)).isDigit = true)
      ∨ (isNamed e = false ∧ (front (encode e ++ y) = 's'
          ∨ (isPointer e = true ∧ front (encode e ++ y) = 'P')
          ∨ front (encode e ++ y) = 'F' ∨ front (encode e ++ y) = 't')) := by
  cases e with
  | scalar c => right; simp [isNamed, encode, front]
  | sized w => cases w <;> (right; simp [isNamed, encode, front])
  | named name =>
    left
    refine ⟨rfl, ?_⟩
    rw [encode, List.append_assoc, front_append_of_ne_nil _ _ (decimal_ne_nil _)]
    exact front_decimal_isDigit _
  | pointer c t => right; simp [isNamed, isPointer, encode, front]
  | function ps r => right; simp [isNamed, encode, front]
  | tuple fs => right; simp [isNamed, encode, front]

theorem encode_length_pos (e : TypeExpr) : 0 < (encode e).length := by
  cases e with
  | scalar c => simp [encode]
  | sized w => cases w <;> simp [encode]
  | named name =>
    have := List.length_pos.mpr (decimal_ne_nil name.length)
    simp [encode]; omega
  | pointer c t => simp [encode]
  | function ps r => simp [encode]
  | tuple fs => simp [encode]

theorem length_le_encodeList_length (es : List TypeExpr) :
    es.length ≤ (encodeList es).length := by
  induction es with
  | nil => simp
  | cons e es ih =>
    have := encode_length_pos e
    simp only [encodeList, List.length_cons, List.length_append]
    omega

end TypeExpr

namespace TypeExpr

mutual
/-- The decoder reads back the encoding of a readable type expression, whatever text
follows it, as long as that text does not extend an integer the encoding ends with. -/
theorem readTypeFuel_encode : ∀ (e : TypeExpr), readable e = true →
    ∀ (fuel : Nat) (x out : Str), (encode e ++ x).length < fuel →
      (endsWithNumber e = true → (strtol x).1 = 0) →
      readTypeFuel fuel (encode e ++ x) out = .ret true x (out ++ render e)
  | .scalar c, _, fuel, x, out, hf, _ => by
    obtain ⟨f, rfl⟩ : ∃ f, fuel = f + 1 := ⟨fuel - 1, by omega⟩
    rw [readTypeFuel_succ_of_not_P _ _ _ (by simp [encode, front])]
    cases c <;>
      simp [encode, readTypeBody, front, scalarCode, Scalar.code, render, Scalar.render]
  | .sized none, _, fuel, x, out, hf, hx => by
    obtain ⟨f, rfl⟩ : ∃ f, fuel = f + 1 := ⟨fuel - 1, by omega⟩
    rw [readTypeFuel_succ_of_not_P _ _ _ (by simp [encode, front])]
    have h := readNum_of_strtol_zero x 0 (hx rfl)
    simp [encode, readTypeBody, front, scalarCode, render, h]
  | .sized (some k), hr, fuel, x, out, hf, hx => by
    obtain ⟨f, rfl⟩ : ∃ f, fuel = f + 1 := ⟨fuel - 1, by omega⟩
    rw [readTypeFuel_succ_of_not_P _ _ _ (by simp [encode, front])]
    have hk : k < 2 ^ 31 := by simpa [readable] using hr
    have h := readNum_decimal k x 0 hk (front_not_digit_of_strtol_zero x (hx rfl))
    simp [encode, readTypeBody, front, scalarCode, render, h, toStdString_natCast]
  | .named name, hr, fuel, x, out, hf, hx => by
    obtain ⟨f, rfl⟩ : ∃ f, fuel = f + 1 := ⟨fuel - 1, by omega⟩
    simp only [readable, Bool.and_eq_true, decide_eq_true_eq, Bool.not_eq_true'] at hr
    have hfx : (front (name ++ x)).isDigit = false := by
      cases name with
      | nil => exact front_not_digit_of_strtol_zero x (hx rfl)
      | cons c r => exact hr.2
    have hfd : front (decimal name.length ++ (name ++ x)) = front (decimal name.length) :=
      front_append_of_ne_nil _ _ (decimal_ne_nil _)
    have hm := isDigit_ne_marker _ (front_decimal_isDigit name.length)
    rw [← hfd] at hm
    simp only [encode, List.append_assoc]
    rw [readTypeFuel_succ_of_not_P _ _ _ hm.1]
    simp [readTypeBody, hm.2.1, hm.2.2.1, hm.2.2.2.1, readName_encoded name x out hr.1 hfx,
      render]
  | .pointer count t, hr, fuel, x, out, hf, hx => by
    obtain ⟨f, rfl⟩ : ∃ f, fuel = f + 1 := ⟨fuel - 1, by omega⟩
    simp only [readable, Bool.and_eq_true, decide_eq_true_eq, Bool.not_eq_true'] at hr
    have hlen : (encode t ++ x).length < f + 1 := by
      simp only [encode, List.cons_append, List.append_assoc, List.length_cons,
        List.length_append] at hf ⊢
      omega
    have ih := readTypeFuel_encode t hr.2 (f + 1) x (out ++ List.replicate count '*') hlen
      (fun h => hx (by simpa [endsWithNumber] using h))
    have hnp : front (encode t ++ x) ≠ 'P' := by
      rcases front_encode t x with ⟨-, h⟩ | ⟨-, h | h | h | h⟩
      · exact (isDigit_ne_marker _ h).1
      · rw [h]; decide
      · rw [hr.1.2] at h; exact absurd h.1 (by decide)
      · rw [h]; decide
      · rw [h]; decide
    rw [readTypeFuel_succ_of_not_P _ _ _ hnp] at ih
    simp only [encode, List.cons_append, List.append_assoc, readTypeFuel,
      pointerPrefix_encoded count _ out hr.1.1, ih, render]
  | .function params result, hr, fuel, x, out, hf, hx => by
    obtain ⟨f, rfl⟩ : ∃ f, fuel = f + 1 := ⟨fuel - 1, by omega⟩
    simp only [readable, Bool.and_eq_true] at hr
    have hlp := length_le_encodeList_length params
    simp only [encode, List.cons_append, List.append_assoc, List.length_cons,
      List.length_append] at hf
    have hloop := typeLoop_encode params hr.1 f f 'R' ('R' :: (encode result ++ x)) []
      (Or.inl rfl) rfl
      (by simp only [List.length_append, List.length_cons]; omega) (by omega)
    have ih := readTypeFuel_encode result hr.2 f x
      (appendJoined (out ++ ['(']) (renderList params) ++ ") -> ".toList)
      (by simp only [List.length_append]; omega)
      (fun h => hx (by simpa [endsWithNumber] using h))
    simp only [encode, List.cons_append, List.append_assoc]
    rw [readTypeFuel_succ_of_not_P _ _ _ (by simp [front])]
    simp only [readTypeBody, front_cons, if_true, List.drop_succ_cons, List.drop_zero, hloop,
      List.nil_append]
    rw [ih]
    simp [render, appendJoined_eq]
  | .tuple fields, hr, fuel, x, out, hf, hx => by
    obtain ⟨f, rfl⟩ : ∃ f, fuel = f + 1 := ⟨fuel - 1, by omega⟩
    simp only [readable] at hr
    have hlp := length_le_encodeList_length fields
    simp only [encode, List.cons_append, List.append_assoc, List.length_cons,
      List.length_append] at hf
    have hloop := typeLoop_encode fields hr f f 'T' ('T' :: x) []
      (Or.inr rfl) rfl
      (by simp only [List.length_append, List.length_cons]; omega) (by omega)
    simp only [encode, List.cons_append, List.append_assoc]
    rw [readTypeFuel_succ_of_not_P _ _ _ (by simp [front])]
    have h1 : front ('t' :: (encodeList fields ++ ('T' :: x))) ≠ 'F' := by simp [front]
    simp only [readTypeBody, h1, if_false, front_cons, if_true, List.drop_succ_cons,
      List.drop_zero, hloop, List.nil_append, render, appendJoined_eq]
    simp
/-- The type loop reads back the encodings of a readable sequence up to the stop
character. -/
theorem typeLoop_encode : ∀ (es : List TypeExpr), readableList es = true →
    ∀ (fuel n : Nat) (stop : Char) (x : Str) (acc : List Str),
      (stop = 'R' ∨ stop = 'T') → front x = stop →
      (encodeList es ++ x).length < fuel → es.length < n →
      typeLoop (readTypeFuel fuel) stop n (encodeList es ++ x) acc
        = .ret true x (acc ++ renderList es)
  | [], _, fuel, n, stop, x, acc, _, hx, _, hn => by
    obtain ⟨k, rfl⟩ : ∃ k, n = k + 1 := ⟨n - 1, by simp at hn; omega⟩
    simp [encodeList, renderList, typeLoop, hx]
  | e :: es, hr, fuel, n, stop, x, acc, hs, hx, hf, hn => by
    obtain ⟨k, rfl⟩ : ∃ k, n = k + 1 := ⟨n - 1, by omega⟩
    simp only [readableList, Bool.and_eq_true, Bool.not_eq_true', Bool.and_eq_false_imp] at hr
    have hne : front (encode e ++ (encodeList es ++ x)) ≠ stop := by
      rcases front_encode e (encodeList es ++ x) with ⟨-, h⟩ | ⟨-, h | h | h | h⟩
      · have hm := isDigit_ne_marker _ h
        rcases hs with rfl | rfl
        · exact hm.2.2.2.2.2.2.2.2.2.2.1
        · exact hm.2.2.2.2.2.2.2.2.2.2.2.1
      · rw [h]; rcases hs with rfl | rfl <;> decide
      · rw [h.2]; rcases hs with rfl | rfl <;> decide
      · rw [h]; rcases hs with rfl | rfl <;> decide
      · rw [h]; rcases hs with rfl | rfl <;> decide
    have hnum : endsWithNumber e = true → (strtol (encodeList es ++ x)).1 = 0 := by
      intro he
      have hnn := hr.1.2 he
      cases es with
      | nil =>
        apply strtol_of_marker
        simp only [encodeList, List.nil_append, hx]
        rcases hs with rfl | rfl <;> simp
      | cons u us =>
        simp only [List.head?_cons, Option.map_some', Option.getD_some] at hnn
        apply strtol_of_marker
        rcases front_encode u (encodeList us ++ x) with ⟨h, -⟩ | ⟨-, h | h | h | h⟩
        · rw [hnn] at h; exact absurd h (by decide)
        · simp only [encodeList, List.append_assoc]; exact Or.inl h
        · simp only [encodeList, List.append_assoc]; exact Or.inr (Or.inl h.2)
        · simp only [encodeList, List.append_assoc]; exact Or.inr (Or.inr (Or.inl h))
        · simp only [encodeList, List.append_assoc]
          exact Or.inr (Or.inr (Or.inr (Or.inl h)))
    simp only [encodeList, List.append_assoc, List.length_append, List.length_cons] at hf hn
    have h1 := readTypeFuel_encode e hr.1.1 fuel (encodeList es ++ x) []
      (by simp only [List.length_append]; omega) hnum
    have h2 := typeLoop_encode es hr.2 fuel k stop x (acc ++ [render e]) hs hx
      (by have := encode_length_pos e; simp only [List.length_append]; omega) (by omega)
    simp only [encodeList, List.append_assoc, renderList]
    rw [typeLoop]
    simp only [hne, ne_eq, not_false_eq_true, if_true, h1, List.nil_append, h2]
    simp
end

end TypeExpr

/-- C1 (as stated, refuted): the tuple of `si` and the nominal type `Foo` is encoded
`tsi3FooT`; the decoder reads `3` as the width of the integer and fails on `Foo`. -/
theorem demangle_sized_then_named_fails :
    TypeExpr.encode (.tuple [.sized none, .named "Foo".toList]) = "tsi3FooT".toList
      ∧ TypeExpr.render (.tuple [.sized none, .named "Foo".toList]) = "(Int, Foo)".toList
      ∧ demangle true
          ("_WT".toList ++ TypeExpr.encode (.tuple [.sized none, .named "Foo".toList])) []
        = .ret false "ooT".toList "(".toList := by
  decide

/-- C1 (amended): for every readable type expression (integers, counts and name
lengths below `2^31`, names not beginning with a digit, no pointer marker directly on a
pointer, no type ending with an integer directly followed by a nominal name), nested to
any depth, `demangle` on `_WT` followed by the encoding succeeds, consumes the whole
text and returns exactly the documented rendering. -/
theorem demangle_type_encode (ndebug : Bool) (e : TypeExpr) (h : e.readable = true) :
    demangle ndebug ("_WT".toList ++ e.encode) [] = .ret true [] e.render := by
  have h1 := TypeExpr.readTypeFuel_encode e h (e.encode.length + 1) [] []
    (by simp) (fun _ => rfl)
  simp only [List.append_nil, List.nil_append] at h1
  have h2 : demangle ndebug ("_WT".toList ++ e.encode) [] = readType e.encode [] := by
    simp [demangle, front, demangleType]
  rw [h2, readType, h1]

theorem demangle_type_encode_witness :
    demangle true ("_WT".toList ++ TypeExpr.encode
        (.function [.named "Foo".toList, .sized (some 32), .tuple [.sized none, .scalar .bool]]
          (.pointer 2 (.scalar .void)))) []
      = .ret true [] (TypeExpr.render
        (.function [.named "Foo".toList, .sized (some 32), .tuple [.sized none, .scalar .bool]]
          (.pointer 2 (.scalar .void))))
    ∧ TypeExpr.encode
        (.function [.named "Foo".toList, .sized (some 32), .tuple [.sized none, .scalar .bool]]
          (.pointer 2 (.scalar .void))) = "F3Foosi32tsisbTRP2Tsv".toList
    ∧ TypeExpr.render
        (.function [.named "Foo".toList, .sized (some 32), .tuple [.sized none, .scalar .bool]]
          (.pointer 2 (.scalar .void))) = "(Foo, Int32, (Int, Bool)) -> **Void".toList :=
  ⟨demangle_type_encode true _ (by decide), by decide, by decide⟩

/-- On a declared length below `2^31` followed by fewer characters than declared, the
first of them not a digit, `readName` fails and appends nothing. -/
theorem readName_truncated (n : Nat) (t out : Str) (hn : n < 2 ^ 31)
    (ht : (front t).isDigit = false) (hlen : t.length < n) :
    readName (decimal n ++ t) out = (false, t, out) := by
  simp [readName, readNum_decimal n t 0 hn ht, toSizeT_natCast n hn, hlen]

theorem readType_scalar_witness :
    readType ('s' :: 'x' :: "yz".toList) [] = .ret false ('x' :: "yz".toList) [] :=
  (readType_scalar true "yz".toList []).2.2.2.2.2.2.1 'x' (by decide)

/-! ## The recursion budget of `readType` is never used up -/

theorem strtol_nil : strtol [] = (0, 0) := rfl

/-- A successful `readNum` removes at least one character. -/
theorem readNum_length (s s' : Str) (o v : Int) (h : readNum s o = (true, s', v)) :
    s'.length < s.length := by
  cases s with
  | nil => simp [readNum, strtol_nil] at h
  | cons c r =>
    simp only [readNum] at h
    split at h
    · simp at h
    · rename_i hn
      simp only [Prod.mk.injEq, true_and] at h
      rw [← h.1, List.length_drop]
      simp only [List.length_cons]
      omega

/-- Whatever `readNum` returns, the cursor has not grown. -/
theorem readNum_length_le (s : Str) (o : Int) : (readNum s o).2.1.length ≤ s.length := by
  simp only [readNum]
  split
  · simp
  · simp [List.length_drop]

/-- A successful `readName` removes at least one character. -/
theorem readName_length (s s' out out' : Str) (h : readName s out = (true, s', out')) :
    s'.length < s.length := by
  simp only [readName] at h
  split at h
  · simp at h
  · rename_i s1 num hnum
    have := readNum_length s s1 0 num hnum
    split at h
    · simp at h
    · simp only [Prod.mk.injEq, true_and] at h
      rw [← h.1, List.length_drop]
      omega

theorem length_drop_one_lt (s : Str) (c : Char) (hc : c ≠ Char.ofNat 0) (h : front s = c) :
    (s.drop 1).length < s.length := by
  cases s with
  | nil => exact absurd h.symm hc
  | cons a r => simp

/-- The pointer prefix never lengthens the cursor. -/
theorem pointerPrefix_length (s out s' out' : Str) (ok : Bool)
    (h : pointerPrefix s out = .ret ok s' out') : s'.length ≤ s.length := by
  simp only [pointerPrefix] at h
  split at h
  · have h1 := readNum_length_le (s.drop 1) 0
    have h2 : (s.drop 1).length ≤ s.length := by simp [List.length_drop]
    split at h
    · rename_i s1 _ hn
      rw [hn] at h1
      simp only at h1
      simp only [Outcome.ret.injEq] at h
      rw [← h.2.1]; exact le_trans h1 h2
    · rename_i s1 num hn
      rw [hn] at h1
      simp only at h1
      split at h
      · simp at h
      · split at h
        · simp only [Outcome.ret.injEq] at h
          rw [← h.2.1]; exact le_trans h1 h2
        · simp only [Outcome.ret.injEq] at h
          rw [← h.2.1, List.length_drop]
          have := le_trans h1 h2
          omega
  · simp only [Outcome.ret.injEq] at h
    rw [h.2.1]

/-- The scalar switch never lengthens the cursor. -/
theorem scalarCode_length (s out s' out' : Str) (ok : Bool)
    (h : scalarCode s out = .ret ok s' out') : s'.length ≤ s.length := by
  simp only [scalarCode] at h
  have hd : (s.drop 1).length ≤ s.length := by simp [List.length_drop]
  split at h
  · have h1 := readNum_length_le (s.drop 1) 0
    split at h <;> rename_i hn <;> rw [hn] at h1 <;>
      simp only [Outcome.ret.injEq] at h <;> rw [← h.2.1] <;> exact le_trans h1 hd
  · repeat' split at h
    all_goals simp only [Outcome.ret.injEq] at h
    all_goals rw [← h.2.1]
    all_goals exact hd

/-- The type loop never lengthens the cursor, when the reader it runs shortens it. -/
theorem typeLoop_length (rd : Str → Str → Outcome Str) (stop : Char)
    (hrd : ∀ s o s' o', rd s o = .ret true s' o' → s'.length < s.length) :
    ∀ (n : Nat) (s : Str) (acc : List Str) (s' : Str) (names : List Str),
      typeLoop rd stop n s acc = .ret true s' names → s'.length ≤ s.length := by
  intro n
  induction n with
  | zero => intro s acc s' names h; simp [typeLoop] at h
  | succ k ih =>
    intro s acc s' names h
    rw [typeLoop] at h
    split at h
    · split at h
      · rename_i s1 name hr
        have h1 := hrd _ _ _ _ hr
        have h2 := ih _ _ _ _ h
        omega
      · simp at h
      · simp at h
    · simp only [Outcome.ret.injEq, true_and] at h
      rw [h.1]

/-- Lines 54-138 of `readType` shorten the cursor on success, when the recursive calls
do. -/
theorem readTypeBody_length (rd : Str → Str → Outcome Str) (n : Nat)
    (hrd : ∀ s o s' o', rd s o = .ret true s' o' → s'.length < s.length)
    (s out s' out' : Str) (h : readTypeBody rd n s out = .ret true s' out') :
    s'.length < s.length := by
  simp only [readTypeBody] at h
  split at h
  · rename_i hF
    have h0 := length_drop_one_lt s 'F' (by decide) hF
    split at h
    · simp at h
    · simp at h
    · rename_i s1 names hl
      have h1 := typeLoop_length rd 'R' hrd _ _ _ _ _ hl
      have h2 := hrd _ _ _ _ h
      have h3 : (s1.drop 1).length ≤ s1.length := by simp [List.length_drop]
      omega
  · split at h
    · rename_i ht
      have h0 := length_drop_one_lt s 't' (by decide) ht
      split at h
      · simp at h
      · simp at h
      · rename_i s1 names hl
        have h1 := typeLoop_length rd 'T' hrd _ _ _ _ _ hl
        simp only [Outcome.ret.injEq, true_and] at h
        rw [← h.1, List.length_drop]
        omega
    · split at h
      · rename_i hs
        have h0 := length_drop_one_lt s 's' (by decide) hs
        have h1 := scalarCode_length _ _ _ _ _ h
        omega
      · simp only [Outcome.ret.injEq] at h
        exact readName_length s s' out out' (Prod.ext h.1 (Prod.ext h.2.1 h.2.2))

/-- A successful `readType` removes at least one character, with any budget. -/
theorem readTypeFuel_length : ∀ (fuel : Nat) (s out s' out' : Str),
    readTypeFuel fuel s out = .ret true s' out' → s'.length < s.length := by
  intro fuel
  induction fuel with
  | zero => intro s out s' out' h; simp [readTypeFuel] at h
  | succ f ih =>
    intro s out s' out' h
    rw [readTypeFuel] at h
    split at h
    · simp at h
    · simp at h
    · rename_i s1 o1 hp
      have h1 := pointerPrefix_length _ _ _ _ _ hp
      have h2 := readTypeBody_length (readTypeFuel f) f ih _ _ _ _ h
      omega

/-- The type loop does not run out of iterations when its bound exceeds the length of
the cursor. -/
theorem typeLoop_ne_exhausted (rd : Str → Str → Outcome Str) (stop : Char) (f : Nat)
    (hrd : ∀ s o s' o', rd s o = .ret true s' o' → s'.length < s.length)
    (hne : ∀ s o, s.length < f → rd s o ≠ .halt .exhausted) :
    ∀ (n : Nat) (s : Str) (acc : List Str), s.length < n → s.length < f →
      typeLoop rd stop n s acc ≠ .halt .exhausted := by
  intro n
  induction n with
  | zero => intro s acc hn; omega
  | succ k ih =>
    intro s acc hn hf h
    rw [typeLoop] at h
    split at h
    · split at h
      · rename_i s1 name hr
        have h1 := hrd _ _ _ _ hr
        exact ih s1 _ (by omega) (by omega) h
      · simp at h
      · rename_i h' hr
        simp only [Outcome.halt.injEq] at h
        rw [h] at hr
        exact hne s [] hf hr
    · simp at h

/-- Lines 54-138 of `readType` do not run out of budget, when the recursive calls on a
shorter cursor do not. -/
theorem readTypeBody_ne_exhausted (rd : Str → Str → Outcome Str) (f : Nat)
    (hrd : ∀ s o s' o', rd s o = .ret true s' o' → s'.length < s.length)
    (hne : ∀ s o, s.length < f → rd s o ≠ .halt .exhausted)
    (s out : Str) (hs : s.length ≤ f) : readTypeBody rd f s out ≠ .halt .exhausted := by
  intro h
  simp only [readTypeBody] at h
  split at h
  · rename_i hF
    have h0 := length_drop_one_lt s 'F' (by decide) hF
    have hl := typeLoop_ne_exhausted rd 'R' f hrd hne f (s.drop 1) [] (by omega) (by omega)
    split at h
    · rename_i h' hl'
      simp only [Outcome.halt.injEq] at h
      rw [h] at hl'
      exact hl hl'
    · simp at h
    · rename_i s1 names hl'
      have h1 := typeLoop_length rd 'R' hrd _ _ _ _ _ hl'
      have h3 : (s1.drop 1).length ≤ s1.length := by simp [List.length_drop]
      exact hne _ _ (by omega) h
  · split at h
    · rename_i ht
      have h0 := length_drop_one_lt s 't' (by decide) ht
      have hl := typeLoop_ne_exhausted rd 'T' f hrd hne f (s.drop 1) [] (by omega) (by omega)
      split at h
      · rename_i h' hl'
        simp only [Outcome.halt.injEq] at h
        rw [h] at hl'
        exact hl hl'
      · simp at h
      · simp at h
    · split at h
      · simp only [scalarCode] at h
        repeat' split at h
        all_goals simp at h
      · simp at h

theorem pointerPrefix_ne_exhausted (s out : Str) :
    pointerPrefix s out ≠ .halt .exhausted := by
  intro h
  simp only [pointerPrefix] at h
  repeat' split at h
  all_goals simp at h

/-- `readTypeFuel` does not run out of budget when the budget exceeds the length of the
cursor. -/
theorem readTypeFuel_ne_exhausted : ∀ (fuel : Nat) (s out : Str), s.length < fuel →
    readTypeFuel fuel s out ≠ .halt .exhausted := by
  intro fuel
  induction fuel with
  | zero => intro s out h; omega
  | succ f ih =>
    intro s out hs h
    rw [readTypeFuel] at h
    split at h
    · rename_i h' hp
      simp only [Outcome.halt.injEq] at h
      rw [h] at hp
      exact pointerPrefix_ne_exhausted _ _ hp
    · simp at h
    · rename_i s1 o1 hp
      have h1 := pointerPrefix_length _ _ _ _ _ hp
      exact readTypeBody_ne_exhausted (readTypeFuel f) f (readTypeFuel_length f) ih s1 o1
        (by omega) h

/-- `readType` always stays within its budget. -/
theorem readType_ne_exhausted (s out : Str) : readType s out ≠ .halt .exhausted :=
  readTypeFuel_ne_exhausted _ s out (Nat.lt_succ_self _)

/-! ## The result of `readType` does not depend on the budget -/

/-- Two type loops agree when their readers agree on every cursor no longer than the
current one and both bounds exceed its length. -/
theorem typeLoop_congr (rd1 rd2 : Str → Str → Outcome Str) (stop : Char) (L : Nat)
    (hrd : ∀ s o s' o', rd1 s o = .ret true s' o' → s'.length < s.length)
    (heq : ∀ s o, s.length ≤ L → rd1 s o = rd2 s o) :
    ∀ (n1 n2 : Nat) (s : Str) (acc : List Str), s.length < n1 → s.length < n2 →
      s.length ≤ L → typeLoop rd1 stop n1 s acc = typeLoop rd2 stop n2 s acc := by
  intro n1
  induction n1 with
  | zero => intro n2 s acc h; omega
  | succ k ih =>
    intro n2 s acc h1 h2 hL
    obtain ⟨m, rfl⟩ : ∃ m, n2 = m + 1 := ⟨n2 - 1, by omega⟩
    rw [typeLoop, typeLoop, ← heq s [] hL]
    split
    · cases hr : rd1 s [] with
      | halt h => rfl
      | ret ok s1 name =>
        cases ok with
        | false => rfl
        | true =>
          have := hrd _ _ _ _ hr
          exact ih m s1 _ (by omega) (by omega) (by omega)
    · rfl

/-- Lines 54-138 of `readType` give the same result with two readers that agree on every
cursor shorter than the current one, and two loop bounds that are large enough. -/
theorem readTypeBody_congr (rd1 rd2 : Str → Str → Outcome Str) (n1 n2 : Nat)
    (s out : Str)
    (hrd : ∀ s o s' o', rd1 s o = .ret true s' o' → s'.length < s.length)
    (heq : ∀ s' o, s'.length < s.length → rd1 s' o = rd2 s' o)
    (h1 : s.length ≤ n1) (h2 : s.length ≤ n2) :
    readTypeBody rd1 n1 s out = readTypeBody rd2 n2 s out := by
  simp only [readTypeBody]
  split
  · rename_i hF
    have h0 := length_drop_one_lt s 'F' (by decide) hF
    rw [← typeLoop_congr rd1 rd2 'R' (s.length - 1) hrd
      (fun s' o hs => heq s' o (by omega)) n1 n2 (s.drop 1) [] (by omega) (by omega)
      (by omega)]
    cases hl : typeLoop rd1 'R' n1 (s.drop 1) [] with
    | halt h => rfl
    | ret ok s1 names =>
      cases ok with
      | false => rfl
      | true =>
        have h3 := typeLoop_length rd1 'R' hrd _ _ _ _ _ hl
        have h4 : (s1.drop 1).length ≤ s1.length := by simp [List.length_drop]
        exact heq _ _ (by omega)
  · split
    · rename_i ht
      have h0 := length_drop_one_lt s 't' (by decide) ht
      rw [← typeLoop_congr rd1 rd2 'T' (s.length - 1) hrd
        (fun s' o hs => heq s' o (by omega)) n1 n2 (s.drop 1) [] (by omega) (by omega)
        (by omega)]
    · rfl

/-- With any two budgets that exceed the length of the cursor, `readTypeFuel` gives the
same result. -/
theorem readTypeFuel_congr : ∀ (f1 f2 : Nat) (s out : Str), s.length < f1 → s.length < f2 →
    readTypeFuel f1 s out = readTypeFuel f2 s out := by
  intro f1
  induction f1 with
  | zero => intro f2 s out h; omega
  | succ a ih =>
    intro f2 s out h1 h2
    obtain ⟨b, rfl⟩ : ∃ b, f2 = b + 1 := ⟨f2 - 1, by omega⟩
    rw [readTypeFuel, readTypeFuel]
    cases hp : pointerPrefix s out with
    | halt h => rfl
    | ret ok s1 o1 =>
      cases ok with
      | false => rfl
      | true =>
        have h3 := pointerPrefix_length _ _ _ _ _ hp
        exact readTypeBody_congr (readTypeFuel a) (readTypeFuel b) a b s1 o1
          (readTypeFuel_length a)
          (fun s' o hs => ih b s' o (by omega) (by omega)) (by omega) (by omega)

/-- With a budget that exceeds the length of the cursor, `readTypeFuel` is `readType`. -/
theorem readTypeFuel_eq_readType (fuel : Nat) (s out : Str) (h : s.length < fuel) :
    readTypeFuel fuel s out = readType s out :=
  readTypeFuel_congr fuel (s.length + 1) s out h (Nat.lt_succ_self _)

/-- A successful `readType` removes at least one character. -/
theorem readType_length (s out s' out' : Str) (h : readType s out = .ret true s' out') :
    s'.length < s.length :=
  readTypeFuel_length _ s out s' out' h

/-- The code of `readType`, with the recursive calls and loops in terms of `readType`
itself: the pointer prefix, then lines 54-138. -/
theorem readType_unfold (s out : Str) :
    readType s out =
      match pointerPrefix s out with
      | .halt h => .halt h
      | .ret false s1 o1 => .ret false s1 o1
      | .ret true s1 o1 => readTypeBody readType s1.length s1 o1 := by
  rw [readType, readTypeFuel]
  cases hp : pointerPrefix s out with
  | halt h => rfl
  | ret ok s1 o1 =>
    cases ok with
    | false => rfl
    | true =>
      have h3 := pointerPrefix_length _ _ _ _ _ hp
      exact readTypeBody_congr (readTypeFuel s.length) readType s.length s1.length s1 o1
        (readTypeFuel_length _)
        (fun s' o hs => readTypeFuel_eq_readType _ s' o (by omega)) h3 (le_refl _)

/-! ## The argument loop -/

/-- A successful `readArg` removes at least one character. -/
theorem readArg_length (s out s' out' : Str) (h : readArg s out = .ret true s' out') :
    s'.length < s.length := by
  simp only [readArg] at h
  split at h
  · simp at h
  · rename_i single s1 ext hlab
    have h1 : s1.length ≤ s.length := by
      split at hlab
      · simp only [Prod.mk.injEq, true_and] at hlab
        rw [← hlab.2.1]; simp [List.length_drop]
      · split at hlab
        · have hn := readNum_length_le (s.drop 1) 0
          have hd : (s.drop 1).length ≤ s.length := by simp [List.length_drop]
          simp only [Prod.mk.injEq] at hlab
          have hlen := readName_length (s.drop 1) s1 [] ext
            (Prod.ext hlab.1 (Prod.ext hlab.2.2.1 hlab.2.2.2))
          omega
        · simp only [Prod.mk.injEq, true_and] at hlab
          rw [hlab.2.1]
    split at h
    · simp at h
    · rename_i s2 internal hin
      have h2 := readName_length _ _ _ _ hin
      split at h
      · simp at h
      · simp at h
      · rename_i s3 type ht
        have h3 := readType_length _ _ _ _ ht
        simp only [Outcome.ret.injEq, true_and] at h
        rw [← h.1]
        omega

/-- `readArg` never runs out of budget. -/
theorem readArg_ne_exhausted (s out : Str) : readArg s out ≠ .halt .exhausted := by
  intro h
  simp only [readArg] at h
  split at h
  · simp at h
  · split at h
    · simp at h
    · split at h
      · rename_i h' ht
        simp only [Outcome.halt.injEq] at h
        rw [h] at ht
        exact readType_ne_exhausted _ _ ht
      · simp at h
      · simp at h

/-- The argument loop does not run out of iterations when its bound exceeds the length
of the cursor. -/
theorem argLoop_ne_exhausted : ∀ (n : Nat) (s : Str) (acc : List Str), s.length < n →
    argLoop n s acc ≠ .halt .exhausted := by
  intro n
  induction n with
  | zero => intro s acc hn; omega
  | succ k ih =>
    intro s acc hn h
    rw [argLoop] at h
    split at h
    · split at h
      · rename_i s1 arg hr
        have h1 := readArg_length _ _ _ _ hr
        exact ih s1 _ (by omega) h
      · simp at h
      · rename_i h' hr
        simp only [Outcome.halt.injEq] at h
        rw [h] at hr
        exact readArg_ne_exhausted _ _ hr
    · simp at h

/-! ## The readers only append to the output -/

theorem readName_prepend (s pre out : Str) :
    readName s (pre ++ out)
      = ((readName s out).1, (readName s out).2.1, pre ++ (readName s out).2.2) := by
  simp only [readName]
  split
  · rfl
  · split <;> simp

theorem pointerPrefix_prepend (s pre out : Str) :
    pointerPrefix s (pre ++ out) = (pointerPrefix s out).prepend pre := by
  simp only [pointerPrefix]
  split
  · split
    · rfl
    · split
      · rfl
      · split <;> simp [Outcome.prepend]
  · rfl

theorem scalarCode_prepend (s pre out : Str) :
    scalarCode s (pre ++ out) = (scalarCode s out).prepend pre := by
  simp only [scalarCode]
  repeat' split
  all_goals simp [Outcome.prepend]

theorem appendJoined_prepend (pre out : Str) (names : List Str) :
    appendJoined (pre ++ out) names = pre ++ appendJoined out names := by
  simp [appendJoined_eq]

/-- Lines 54-138 of `readType` only append to the output, when the recursive calls do. -/
theorem readTypeBody_prepend (rd : Str → Str → Outcome Str) (n : Nat)
    (hrd : ∀ s a b, rd s (a ++ b) = (rd s b).prepend a) (s pre out : Str) :
    readTypeBody rd n s (pre ++ out) = (readTypeBody rd n s out).prepend pre := by
  simp only [readTypeBody]
  split
  · cases typeLoop rd 'R' n (s.drop 1) [] with
    | halt h => rfl
    | ret ok s1 names =>
      cases ok with
      | false => simp [Outcome.prepend]
      | true =>
        simp only [List.append_assoc, appendJoined_prepend]
        exact hrd _ _ _
  · split
    · cases typeLoop rd 'T' n (s.drop 1) [] with
      | halt h => rfl
      | ret ok s1 names =>
        cases ok with
        | false => simp [Outcome.prepend]
        | true => simp [Outcome.prepend, appendJoined_prepend]
    · split
      · exact scalarCode_prepend _ _ _
      · rw [readName_prepend]
        rfl

theorem readTypeFuel_prepend : ∀ (fuel : Nat) (s pre out : Str),
    readTypeFuel fuel s (pre ++ out) = (readTypeFuel fuel s out).prepend pre := by
  intro fuel
  induction fuel with
  | zero => intro s pre out; rfl
  | succ f ih =>
    intro s pre out
    rw [readTypeFuel, readTypeFuel, pointerPrefix_prepend]
    cases pointerPrefix s out with
    | halt h => rfl
    | ret ok s1 o1 =>
      cases ok with
      | false => rfl
      | true => exact readTypeBody_prepend (readTypeFuel f) f (ih) s1 pre o1

/-- `readType` entered with the output `pre ++ out` does what it does entered with
`out`, with `pre` in front of the output. -/
theorem readType_prepend (s pre out : Str) :
    readType s (pre ++ out) = (readType s out).prepend pre :=
  readTypeFuel_prepend _ s pre out

/-- `readType` entered with the output `out`, from what it does with the empty output. -/
theorem readType_of_nil (s out s' r : Str) (ok : Bool) (h : readType s [] = .ret ok s' r) :
    readType s out = .ret ok s' (out ++ r) := by
  have := readType_prepend s out []
  rw [List.append_nil, h] at this
  exact this

/-! ## Pointer types -/

/-- C11 (as stated, refuted): `P1Tsv` is decoded by `readType` to `*Void`, yet after
the pointer marker `P2T` the decoder does not look for another `P`: it takes `P1Tsv`
for a name and fails.  And `P1` followed by the text `0Tsv`, whose first character is
not `T`, is `P10Tsv`, which succeeds with ten asterisks. -/
theorem readType_pointer_on_pointer_fails :
    readType "P1Tsv".toList [] = .ret true [] "*Void".toList
      ∧ readType ("P".toList ++ (decimal 2 ++ ("T".toList ++ "P1Tsv".toList))) []
          = .ret false "P1Tsv".toList "**".toList
      ∧ front "0Tsv".toList ≠ 'T'
      ∧ readType ("P".toList ++ (decimal 1 ++ "0Tsv".toList)) []
          = .ret true [] "**********Void".toList := by
  decide

/-- C11 (amended): for every count `n < 2^31` and every encoding `e` that does not begin
with `P` and that `readType` decodes to `r`, `readType` on `P`, the decimal of `n`, `T`
and `e` succeeds and appends `n` asterisks followed by `r`; and for every text `x` that
begins neither with `T` nor with a decimal digit, `readType` on `P`, the decimal of
`n` and `x` fails. -/
theorem readType_pointer (n : Nat) (hn : n < 2 ^ 31) (out : Str) :
    (∀ e rest r, front e ≠ 'P' → readType e [] = .ret true rest r →
        readType ('P' :: (decimal n ++ 'T' :: e)) out
          = .ret true rest (out ++ (List.replicate n '*' ++ r)))
      ∧ (∀ x, front x ≠ 'T' → (front x).isDigit = false →
        readType ('P' :: (decimal n ++ x)) out
          = .ret false x (out ++ List.replicate n '*')) := by
  constructor
  · intro e rest r he hr
    have h1 := readType_of_nil e (out ++ List.replicate n '*') rest r true hr
    rw [readType_unfold] at h1 ⊢
    rw [pointerPrefix_encoded n e out hn]
    have hp : pointerPrefix e (out ++ List.replicate n '*')
        = .ret true e (out ++ List.replicate n '*') := by
      simp [pointerPrefix, he]
    rw [hp] at h1
    simp only [List.append_assoc] at h1 ⊢
    exact h1
  · intro x hx hd
    have h := readNum_decimal n x 0 hn hd
    have h0 : ¬ ((n : Int) < 0) := by omega
    rw [readType_unfold]
    simp [pointerPrefix, front_cons, h, hx, h0]

theorem readType_pointer_witness :
    readType ('P' :: (decimal 2 ++ 'T' :: "sv".toList)) []
        = .ret true [] ([] ++ (List.replicate 2 '*' ++ "Void".toList))
      ∧ readType ('P' :: (decimal 2 ++ "sv".toList)) []
        = .ret false "sv".toList ([] ++ List.replicate 2 '*') :=
  ⟨(readType_pointer 2 (by decide) []).1 "sv".toList [] "Void".toList (by decide) (by decide),
   (readType_pointer 2 (by decide) []).2 "sv".toList (by decide) (by decide)⟩

/-! ## Function and tuple types -/

/-- `readType` fails on a cursor that begins with a stop character of the type loops. -/
theorem readType_of_front_stop (s out : Str) (h : front s = 'R' ∨ front s = 'T') :
    readType s out = .ret false s out := by
  have hz : strtol s = (0, 0) := by
    rcases h with h | h <;>
      exact strtol_of_front s (by rw [h]; decide) (by rw [h]; decide) (by rw [h]; decide)
        (by rw [h]; decide)
  have hn : readName s out = (false, s, out) := by
    simp [readName, readNum_of_strtol_zero s 0 (by rw [hz])]
  rw [readType_unfold]
  rcases h with h | h <;> simp [pointerPrefix, readTypeBody, h, hn]

theorem readType_nil (out : Str) : readType [] out = .ret false [] out := by
  have hn : readName [] out = (false, [], out) := by
    simp [readName, readNum_of_strtol_zero [] 0 rfl]
  rw [readType_unfold]
  simp [pointerPrefix, readTypeBody, front, hn]

/-- The type loop on the concatenation of encodings that `readType` decodes, whatever
follows them, stopped by a text that begins with the stop character. -/
theorem typeLoop_decoded (stop : Char) (hs : stop = 'R' ∨ stop = 'T')
    (ps : List (Str × Str))
    (hps : ∀ p ∈ ps, ∀ x, readType (p.1 ++ x) [] = .ret true x p.2) :
    ∀ (n : Nat) (acc : List Str) (x : Str), ps.length < n → front x = stop →
      typeLoop readType stop n ((ps.map Prod.fst).flatten ++ x) acc
        = .ret true x (acc ++ ps.map Prod.snd) := by
  induction ps with
  | nil =>
    intro n acc x hn hx
    obtain ⟨k, rfl⟩ : ∃ k, n = k + 1 := ⟨n - 1, by simp at hn; omega⟩
    simp [typeLoop, hx]
  | cons a l ih =>
    intro n acc x hn hx
    obtain ⟨k, rfl⟩ : ∃ k, n = k + 1 := ⟨n - 1, by omega⟩
    have ha := hps a (by simp) ((l.map Prod.fst).flatten ++ x)
    have hne : front (a.1 ++ ((l.map Prod.fst).flatten ++ x)) ≠ stop := by
      intro hf
      have := readType_of_front_stop (a.1 ++ ((l.map Prod.fst).flatten ++ x)) []
        (by rcases hs with rfl | rfl
            · exact Or.inl hf
            · exact Or.inr hf)
      rw [ha] at this
      simp at this
    have ih' := ih (fun b hb => hps b (by simp [hb])) k (acc ++ [a.2]) x
      (by simp at hn; omega) hx
    simp only [List.map_cons, List.flatten_cons, List.append_assoc]
    rw [typeLoop]
    simp only [hne, ne_eq, not_false_eq_true, if_true, ha, ih']
    simp

theorem decoded_ne_nil (ps : List (Str × Str))
    (hps : ∀ p ∈ ps, ∀ x, readType (p.1 ++ x) [] = .ret true x p.2) :
    ∀ p ∈ ps, p.1 ≠ [] := by
  intro p hp h0
  have := hps p hp []
  rw [h0] at this
  simp [readType_nil] at this

/-- C12: for parameter encodings `e_1 .. e_k` and a return type encoding, each decoded
by `readType` to its rendering whatever text follows it, `readType` on `F`, the
parameter encodings, `R` and the return encoding appends `(r_1, .., r_k) -> r_ret`
(`() -> r_ret` when `k = 0`) and leaves what follows the return encoding. -/
theorem readType_function (ps : List (Str × Str)) (eret rret : Str)
    (hps : ∀ p ∈ ps, ∀ x, readType (p.1 ++ x) [] = .ret true x p.2)
    (hret : ∀ x, readType (eret ++ x) [] = .ret true x rret) (x out : Str) :
    readType ('F' :: ((ps.map Prod.fst).flatten ++ 'R' :: (eret ++ x))) out
      = .ret true x (out ++ ("(".toList ++ ", ".toList.intercalate (ps.map Prod.snd)
          ++ ") -> ".toList ++ rret)) := by
  have hlen := length_le_flatten_length ps (decoded_ne_nil ps hps)
  have hloop := typeLoop_decoded 'R' (Or.inl rfl) ps hps
    ('F' :: ((ps.map Prod.fst).flatten ++ 'R' :: (eret ++ x))).length []
    ('R' :: (eret ++ x))
    (by simp only [List.length_cons, List.length_append]; omega) rfl
  have hr := readType_of_nil (eret ++ x)
    (appendJoined (out ++ ['(']) (ps.map Prod.snd) ++ ") -> ".toList) x rret true (hret x)
  rw [readType_unfold]
  have hp : pointerPrefix ('F' :: ((ps.map Prod.fst).flatten ++ 'R' :: (eret ++ x))) out
      = .ret true ('F' :: ((ps.map Prod.fst).flatten ++ 'R' :: (eret ++ x))) out := by
    simp [pointerPrefix, front]
  rw [hp]
  simp only [readTypeBody, front_cons, if_true, List.drop_succ_cons, List.drop_zero, hloop,
    List.nil_append]
  rw [hr]
  simp [appendJoined_eq]

theorem readType_function_witness :
    readType ('F' :: (([("sb".toList, "Bool".toList), ("sd".toList, "Double".toList)].map
        Prod.fst).flatten ++ 'R' :: ("sv".toList ++ "xyz".toList))) []
      = .ret true "xyz".toList ([] ++ ("(".toList ++ ", ".toList.intercalate
          ([("sb".toList, "Bool".toList), ("sd".toList, "Double".toList)].map Prod.snd)
          ++ ") -> ".toList ++ "Void".toList))
    ∧ 'F' :: (([("sb".toList, "Bool".toList), ("sd".toList, "Double".toList)].map
        Prod.fst).flatten ++ 'R' :: ("sv".toList ++ "xyz".toList)) = "FsbsdRsvxyz".toList
    ∧ ([] : Str) ++ ("(".toList ++ ", ".toList.intercalate
          ([("sb".toList, "Bool".toList), ("sd".toList, "Double".toList)].map Prod.snd)
          ++ ") -> ".toList ++ "Void".toList) = "(Bool, Double) -> Void".toList :=
  ⟨readType_function [("sb".toList, "Bool".toList), ("sd".toList, "Double".toList)]
      "sv".toList "Void".toList
      (by
        intro p hp x
        simp only [List.mem_cons, List.mem_singleton, List.not_mem_nil, or_false] at hp
        rcases hp with rfl | rfl <;>
          simp [readType_of_not_P, front, readTypeBody, scalarCode])
      (by intro x; simp [readType_of_not_P, front, readTypeBody, scalarCode])
      "xyz".toList [],
    by decide, by decide⟩

/-- C13: for element encodings `e_1 .. e_k`, each decoded by `readType` to its rendering
whatever text follows it, `readType` on `t`, the encodings, `T` and any text `x`
appends `(r_1, .., r_k)` (`()` when `k = 0`) and leaves exactly `x`. -/
theorem readType_tuple (ps : List (Str × Str))
    (hps : ∀ p ∈ ps, ∀ x, readType (p.1 ++ x) [] = .ret true x p.2) (x out : Str) :
    readType ('t' :: ((ps.map Prod.fst).flatten ++ 'T' :: x)) out
      = .ret true x (out ++ ("(".toList ++ ", ".toList.intercalate (ps.map Prod.snd)
          ++ ")".toList)) := by
  have hlen := length_le_flatten_length ps (decoded_ne_nil ps hps)
  have hloop := typeLoop_decoded 'T' (Or.inr rfl) ps hps
    ('t' :: ((ps.map Prod.fst).flatten ++ 'T' :: x)).length [] ('T' :: x)
    (by simp only [List.length_cons, List.length_append]; omega) rfl
  rw [readType_unfold]
  have hp : pointerPrefix ('t' :: ((ps.map Prod.fst).flatten ++ 'T' :: x)) out
      = .ret true ('t' :: ((ps.map Prod.fst).flatten ++ 'T' :: x)) out := by
    simp [pointerPrefix, front]
  rw [hp]
  have h1 : front ('t' :: ((ps.map Prod.fst).flatten ++ 'T' :: x)) ≠ 'F' := by simp [front]
  simp only [readTypeBody, h1, if_false, front_cons, if_true, List.drop_succ_cons,
    List.drop_zero, hloop, List.nil_append]
  simp [appendJoined_eq]

theorem readType_tuple_witness :
    readType ('t' :: (([("sb".toList, "Bool".toList), ("sd".toList, "Double".toList)].map
        Prod.fst).flatten ++ 'T' :: "xyz".toList)) []
      = .ret true "xyz".toList ([] ++ ("(".toList ++ ", ".toList.intercalate
          ([("sb".toList, "Bool".toList), ("sd".toList, "Double".toList)].map Prod.snd)
          ++ ")".toList))
    ∧ ([] : Str) ++ ("(".toList ++ ", ".toList.intercalate
          ([("sb".toList, "Bool".toList), ("sd".toList, "Double".toList)].map Prod.snd)
          ++ ")".toList) = "(Bool, Double)".toList :=
  ⟨readType_tuple [("sb".toList, "Bool".toList), ("sd".toList, "Double".toList)]
      (by
        intro p hp x
        simp only [List.mem_cons, List.mem_singleton, List.not_mem_nil, or_false] at hp
        rcases hp with rfl | rfl <;>
          simp [readType_of_not_P, front, readTypeBody, scalarCode])
      "xyz".toList [],
    by decide⟩

/-! ## Deinitializers, initializers, trailing text -/

/-- What `demangle` does on `_WFD` followed by `rest`, in terms of `readType` on
`rest`. -/
theorem demangle_deinit_eq (ndebug : Bool) (rest out : Str) :
    demangle ndebug ("_WFD".toList ++ rest) out
      = match readType rest out with
        | .halt h => .halt h
        | .ret false symbol out => .ret false symbol out
        | .ret true symbol out => .ret true symbol (out ++ ".deinit".toList) := by
  simp [demangle, demangleFunction, front]

/-- C14: `demangle` on `_WFD` followed by `rest` succeeds exactly when `readType`
succeeds on `rest`, and then its result is the rendered owner type followed by
`.deinit` and nothing else, the text after the owner type staying in the cursor. -/
theorem demangle_deinit (ndebug : Bool) (rest : Str) :
    ((∃ symbol out, demangle ndebug ("_WFD".toList ++ rest) [] = .ret true symbol out)
        ↔ (∃ symbol owner, readType rest [] = .ret true symbol owner))
      ∧ (∀ symbol owner, readType rest [] = .ret true symbol owner →
          demangle ndebug ("_WFD".toList ++ rest) [] = .ret true symbol (owner ++ ".deinit".toList))
      := by
  rw [demangle_deinit_eq]
  cases h : readType rest [] with
  | halt e => simp
  | ret ok s o =>
    cases ok <;> simp

theorem demangle_deinit_witness :
    demangle true ("_WFD".toList ++ "3Foo_RsvC".toList) []
      = .ret true "_RsvC".toList ("Foo".toList ++ ".deinit".toList) :=
  (demangle_deinit true "3Foo_RsvC".toList).2 "_RsvC".toList "Foo".toList (by decide)

/-- C20: for an encoding `e` that `readType` decodes to `r` whatever text follows it,
`demangle` on `_WT`, `e` and any text `x` succeeds with exactly `r`: the trailing text
`x` is left in the cursor and ignored. -/
theorem demangle_type_trailing (ndebug : Bool) (e r : Str)
    (he : ∀ x, readType (e ++ x) [] = .ret true x r) (x : Str) :
    demangle ndebug ("_WT".toList ++ (e ++ x)) [] = .ret true x r
      ∧ demangle ndebug ("_WTsv".toList ++ x) [] = .ret true x "Void".toList := by
  constructor
  · have h : demangle ndebug ("_WT".toList ++ (e ++ x)) [] = readType (e ++ x) [] := by
      simp [demangle, front, demangleType]
    rw [h, he x]
  · simp [demangle, front, demangleType, readType_of_not_P, readTypeBody, scalarCode]

theorem demangle_type_trailing_witness :
    demangle true ("_WT".toList ++ ("sb".toList ++ "_and more".toList)) []
        = .ret true "_and more".toList "Bool".toList
      ∧ demangle true ("_WTsv".toList ++ "_and more".toList) []
        = .ret true "_and more".toList "Void".toList :=
  demangle_type_trailing true "sb".toList "Bool".toList
    (by intro x; simp [readType_of_not_P, front, readTypeBody, scalarCode]) "_and more".toList

theorem argLoop_at_underscore (n : Nat) (x : Str) (acc : List Str) :
    argLoop (n + 1) ('_' :: x) acc = .ret true ('_' :: x) acc := by
  simp [argLoop, front]

/-- `demangle` on `_WFI`, a length-prefixed owner name, `_` and a suffix, in terms of
`functionSuffix` on the suffix. -/
theorem demangle_init_eq (ndebug : Bool) (o suffix : Str) (ho : o.length < 2 ^ 31)
    (hod : (front o).isDigit = false) :
    demangle ndebug ("_WFI".toList ++ (decimal o.length ++ (o ++ '_' :: suffix))) []
      = functionSuffix suffix (o ++ ".init()".toList) := by
  have hfo : (front (o ++ '_' :: suffix)).isDigit = false := by
    cases o with
    | nil => rfl
    | cons c r => exact hod
  have h1 := readType_named o ('_' :: suffix) [] ho hfo
  simp only [List.nil_append] at h1
  have hdem : demangle ndebug ("_WFI".toList ++ (decimal o.length ++ (o ++ '_' :: suffix))) []
      = demangleFunction ('F' :: 'I' :: (decimal o.length ++ (o ++ '_' :: suffix))) [] := by
    simp [demangle, front]
  rw [hdem]
  unfold demangleFunction functionName
  simp only [List.drop_succ_cons, List.drop_zero, front_cons]
  simp only [if_true, h1, List.length_cons, argLoop_at_underscore, appendJoined,
    List.drop_succ_cons, List.drop_zero]
  simp [argLoop_at_underscore, appendJoined]

/-- The initializer rule for an owner name whose length fits an `int`: for an owner name
`o` shorter than `2^31` characters that does not begin with a digit, a return type encoding `e` decoded by `readType` to `r` whatever
follows it, and each choice of the two optional suffixes, `demangle` on `_WFI`, the
length-prefixed `o`, `_`, then `R` and `e` if chosen, then `C` if chosen, succeeds
with `o.init()`, then ` -> r` exactly when `R e` is present, then ` (closure #1)`
exactly when `C` is present. -/
theorem demangle_init (ndebug : Bool) (o e r : Str) (hasReturn hasClosure : Bool)
    (ho : o.length < 2 ^ 31) (hod : (front o).isDigit = false)
    (he : ∀ x, readType (e ++ x) [] = .ret true x r) :
    demangle ndebug ("_WFI".toList ++ (decimal o.length ++ (o ++ '_' ::
        ((if hasReturn then 'R' :: e else []) ++ (if hasClosure then ['C'] else []))))) []
      = .ret true [] (o ++ ".init()".toList
          ++ (if hasReturn then " -> ".toList ++ r else [])
          ++ (if hasClosure then " (closure #1)".toList else [])) := by
  rw [demangle_init_eq ndebug o _ ho hod]
  have he1 := he ['C']
  have he0 := he []
  simp only [List.append_nil] at he0
  cases hasReturn <;> cases hasClosure <;>
    simp [functionSuffix, front, he1, he0]

theorem demangle_init_witness :
    demangle true ("_WFI".toList ++ (decimal "Foo".toList.length ++ ("Foo".toList ++ '_' ::
        ((if true then 'R' :: "sv".toList else []) ++ (if true then ['C'] else []))))) []
      = .ret true [] ("Foo".toList ++ ".init()".toList
          ++ (if true then " -> ".toList ++ "Void".toList else [])
          ++ (if true then " (closure #1)".toList else []))
    ∧ "_WFI".toList ++ (decimal "Foo".toList.length ++ ("Foo".toList ++ '_' ::
        ((if true then 'R' :: "sv".toList else []) ++ (if true then ['C'] else []))))
      = "_WFI3Foo_RsvC".toList
    ∧ "Foo".toList ++ ".init()".toList
          ++ (if true then " -> ".toList ++ "Void".toList else [])
          ++ (if true then " (closure #1)".toList else [])
      = "Foo.init() -> Void (closure #1)".toList :=
  ⟨demangle_init true "Foo".toList "sv".toList "Void".toList true true (by decide) (by decide)
      (by intro x; simp [readType_of_not_P, front, readTypeBody, scalarCode]),
    by decide, by decide⟩

/-- The declared length `2^31` wraps to `-2^31` in the cast to `int`. -/
theorem readNum_wrap_negative (x : Str) (hx : (front x).isDigit = false) :
    readNum (decimal (2 ^ 31) ++ x) 0 = (true, x, -(2 ^ 31 : Int)) := by
  have hs := strtol_decimal (2 ^ 31) x hx
  have hv : toInt32 (clampLong false (2 ^ 31)) = -(2 ^ 31 : Int) := by decide
  have hdl : (decimal (2 ^ 31)).length ≠ 0 := by decide
  simp only [readNum, hs, hdl, if_false, List.drop_left, hv]

/-- A negative length, converted to `size_t`, exceeds the length of the cursor:
`readName` fails. -/
theorem readName_wrap_negative (x : Str) (hx : (front x).isDigit = false)
    (hlen : x.length < 2 ^ 64 - 2 ^ 31) :
    readName (decimal (2 ^ 31) ++ x) [] = (false, x, []) := by
  have hz : toSizeT (-(2 ^ 31 : Int)) = 2 ^ 64 - 2 ^ 31 := by decide
  simp only [readName, readNum_wrap_negative x hx, hz, hlen, if_true]

theorem readType_wrap_negative (x : Str) (hx : (front x).isDigit = false)
    (hlen : x.length < 2 ^ 64 - 2 ^ 31) :
    readType (decimal (2 ^ 31) ++ x) [] = .ret false x [] := by
  have hf : front (decimal (2 ^ 31) ++ x) = front (decimal (2 ^ 31)) :=
    front_append_of_ne_nil _ _ (decimal_ne_nil _)
  have hm := isDigit_ne_marker _ (front_decimal_isDigit (2 ^ 31))
  rw [← hf] at hm
  rw [readType_of_not_P _ _ hm.1]
  simp only [readTypeBody, hm.2.1, hm.2.2.1, hm.2.2.2.1, if_false,
    readName_wrap_negative x hx hlen]

/-- `demangle` on `_WFI` followed by a text on which `readType` fails. -/
theorem demangle_init_of_readType_fails (ndebug : Bool) (s s' out' : Str)
    (h : readType s [] = .ret false s' out') :
    demangle ndebug ("_WFI".toList ++ s) [] = .ret false s' out' := by
  have hdem : demangle ndebug ("_WFI".toList ++ s) []
      = demangleFunction ('F' :: 'I' :: s) [] := by
    simp only [demangle]
    rfl
  rw [hdem]
  unfold demangleFunction functionName
  simp only [List.drop_succ_cons, List.drop_zero, front_cons, h]
  have h1 : ¬ ('I' : Char) = 'D' := by decide
  have h2 : ¬ ('I' : Char) = 'M' := by decide
  simp only [h1, h2, if_false, if_true]

/-- C15 (the code at the failing input): the owner name made of `2^31` letters `a` does
not begin with a digit, but its declared length 2147483648 wraps to `-2^31` in the cast
to `int`: `readName` rejects it and `demangle` fails on `_WFI2147483648aa..a_`. -/
theorem demangle_init_long_owner_fails :
    (front (List.replicate (2 ^ 31) 'a')).isDigit = false
      ∧ demangle true ("_WFI".toList ++ (decimal (List.replicate (2 ^ 31) 'a').length ++
          (List.replicate (2 ^ 31) 'a' ++ ['_']))) []
        = .ret false (List.replicate (2 ^ 31) 'a' ++ ['_']) [] := by
  have hr : List.replicate (2 ^ 31) 'a' = 'a' :: List.replicate (2 ^ 31 - 1) 'a' := by
    have h : (2 ^ 31 : Nat) = (2 ^ 31 - 1) + 1 := by norm_num
    conv_lhs => rw [h]
    exact List.replicate_succ _ _
  have hd : (front (List.replicate (2 ^ 31) 'a')).isDigit = false := by
    rw [hr, front_cons]; decide
  have hx : (front (List.replicate (2 ^ 31) 'a' ++ ['_'])).isDigit = false := by
    rw [hr, List.cons_append, front_cons]; decide
  have hlen : (List.replicate (2 ^ 31) 'a' ++ ['_']).length < 2 ^ 64 - 2 ^ 31 := by
    rw [List.length_append, List.length_replicate]
    decide
  refine ⟨hd, ?_⟩
  rw [List.length_replicate]
  exact demangle_init_of_readType_fails true _ _ _ (readType_wrap_negative _ hx hlen)

/-! ## The stack trace -/

/-- A frame that `dladdr` does not resolve is skipped: nothing is written for it. -/
theorem printFrames_skip (ndebug : Bool) (cxaDemangle : Str → Option Str)
    (basename : Str → Str) (dladdr : Int → Option Runtime.DlInfo) (i : Nat) (addr : Int)
    (rest : List Int) (h : dladdr addr = none) :
    Runtime.printFrames ndebug cxaDemangle basename dladdr i (addr :: rest)
      = Runtime.printFrames ndebug cxaDemangle basename dladdr (i + 1) rest := by
  simp [Runtime.printFrames, h]

/-- C16 (the code at the failing input): for one return address that `dladdr` resolves
to a module without a symbol name (`dli_sname` null), `print_stacktrace` does not skip
the frame: it builds a `std::string` from the null pointer, which is undefined
behaviour, and writes no line. -/
theorem print_stacktrace_null_symbol_name (ndebug : Bool) (cxaDemangle : Str → Option Str)
    (basename : Str → Str) :
    Runtime.print_stacktrace ndebug cxaDemangle basename
        (fun _ => some ⟨"/usr/lib/libfoo.so".toList, none, 0⟩) [4096]
      = ⟨[], some .undefined⟩ := by
  rfl

/-- A frame that `dladdr` resolves with a symbol name that the wrapper renders gets one
line, before the lines of the frames after it. -/
theorem printFrames_resolved (ndebug : Bool) (cxaDemangle : Str → Option Str)
    (basename : Str → Str) (dladdr : Int → Option Runtime.DlInfo) (i : Nat) (addr : Int)
    (rest : List Int) (handle : Runtime.DlInfo) (sname symbol : Str)
    (h : dladdr addr = some handle) (hs : handle.sname = some sname)
    (hd : Runtime.demangle ndebug cxaDemangle sname = .ok symbol) :
    Runtime.printFrames ndebug cxaDemangle basename dladdr i (addr :: rest)
      = ⟨⟨i, basename handle.fname, handle.saddr, symbol, addr - handle.saddr⟩ ::
          (Runtime.printFrames ndebug cxaDemangle basename dladdr (i + 1) rest).lines,
         (Runtime.printFrames ndebug cxaDemangle basename dladdr (i + 1) rest).halted⟩ := by
  simp [Runtime.printFrames, h, hs, hd]

/-! ## The integer reader -/

theorem dropWhile_append_of_all (p : Char → Bool) (l x : Str) (hl : ∀ c ∈ l, p c = true)
    (hx : p (front x) = false) : (l ++ x).dropWhile p = x := by
  induction l with
  | nil =>
    cases x with
    | nil => rfl
    | cons c r => simp [front] at hx; simp [List.dropWhile, hx]
  | cons a l ih =>
    have ha : p a = true := hl a (by simp)
    simp [List.dropWhile, ha]
    exact ih (fun c hc => hl c (by simp [hc]))

theorem front_dropWhile (p : Char → Bool) (hp : p (Char.ofNat 0) = false) (x : Str) :
    p (front (x.dropWhile p)) = false := by
  induction x with
  | nil => exact hp
  | cons c r ih =>
    by_cases hc : p c = true
    · simp [List.dropWhile, hc, ih]
    · simp only [Bool.not_eq_true] at hc
      simp [List.dropWhile, hc, front]

/-- `strtol` on white space, an optional sign, a run of digits that is not empty and a
rest that does not begin with a digit: it consumes all but the rest, and returns the
value of the run, clamped. -/
theorem strtol_of_run (ws sg ds rest : Str) (hws : ∀ c ∈ ws, isSpace c = true)
    (hsg : sg = [] ∨ sg = ['-'] ∨ sg = ['+']) (hne : ds ≠ [])
    (hds : ∀ c ∈ ds, c.isDigit = true) (hrest : (front rest).isDigit = false) :
    strtol (ws ++ (sg ++ (ds ++ rest)))
      = (ws.length + sg.length + ds.length,
          clampLong (decide (sg = ['-'])) (digitsVal ds)) := by
  obtain ⟨d, dr, rfl⟩ : ∃ d dr, ds = d :: dr := by
    cases ds with
    | nil => exact absurd rfl hne
    | cons d dr => exact ⟨d, dr, rfl⟩
  have hd : d.isDigit = true := hds d (by simp)
  obtain ⟨hd1, hd2, hd3⟩ := isDigit_facts d hd
  have htw := takeWhile_append_of_all Char.isDigit (d :: dr) rest hds hrest
  have hfront : isSpace (front (sg ++ (d :: dr ++ rest))) = false := by
    rcases hsg with rfl | rfl | rfl
    · exact hd1
    · show isSpace '-' = false
      decide
    · show isSpace '+' = false
      decide
  have e1 := takeWhile_append_of_all isSpace ws (sg ++ (d :: dr ++ rest)) hws hfront
  have e2 := dropWhile_append_of_all isSpace ws (sg ++ (d :: dr ++ rest)) hws hfront
  simp only [strtol, e1, e2]
  rcases hsg with rfl | rfl | rfl
  · simp only [List.nil_append, List.cons_append, front_cons, hd2, hd3, or_self, if_false,
      List.drop_zero]
    rw [← List.cons_append, htw]
    simp
  · simp only [List.cons_append, List.nil_append, front_cons, true_or, if_true,
      List.drop_succ_cons, List.drop_zero]
    rw [← List.cons_append, htw]
    simp
  · simp only [List.cons_append, List.nil_append, front_cons, or_true, if_true,
      List.drop_succ_cons, List.drop_zero]
    rw [← List.cons_append, htw]
    simp

/-- The pieces `strtol` cuts its argument into, when it converts something. -/
theorem strtol_pieces (s : Str) (h : (strtol s).1 ≠ 0) :
    ∃ ws sg ds rest, s = ws ++ (sg ++ (ds ++ rest)) ∧ (∀ c ∈ ws, isSpace c = true) ∧
      (sg = [] ∨ sg = ['-'] ∨ sg = ['+']) ∧ ds ≠ [] ∧ (∀ c ∈ ds, c.isDigit = true) ∧
      (front rest).isDigit = false := by
  have hsg : ∃ sg, (sg = [] ∨ sg = ['-'] ∨ sg = ['+']) ∧
      s.dropWhile isSpace = sg ++ (s.dropWhile isSpace).drop
        (if front (s.dropWhile isSpace) = '-' ∨ front (s.dropWhile isSpace) = '+' then 1
          else 0) := by
    cases hs1 : s.dropWhile isSpace with
    | nil => exact ⟨[], Or.inl rfl, by simp⟩
    | cons c r =>
      by_cases hc : c = '-' ∨ c = '+'
      · refine ⟨[c], ?_, by simp [front, hc]⟩
        rcases hc with rfl | rfl
        · exact Or.inr (Or.inl rfl)
        · exact Or.inr (Or.inr rfl)
      · exact ⟨[], Or.inl rfl, by simp [front, hc]⟩
  obtain ⟨sg, hsg1, hsg2⟩ := hsg
  refine ⟨s.takeWhile isSpace, sg,
    ((s.dropWhile isSpace).drop (if front (s.dropWhile isSpace) = '-' ∨
      front (s.dropWhile isSpace) = '+' then 1 else 0)).takeWhile Char.isDigit,
    ((s.dropWhile isSpace).drop (if front (s.dropWhile isSpace) = '-' ∨
      front (s.dropWhile isSpace) = '+' then 1 else 0)).dropWhile Char.isDigit,
    ?_, ?_, hsg1, ?_, ?_, ?_⟩
  · rw [List.takeWhile_append_dropWhile, ← hsg2, List.takeWhile_append_dropWhile]
  · intro c hc
    exact List.mem_takeWhile_imp hc
  · intro hnil
    apply h
    simp only [strtol, hnil, if_true]
  · intro c hc
    exact List.mem_takeWhile_imp hc
  · exact front_dropWhile Char.isDigit (by decide) _

theorem readNum_fst (s : Str) (o : Int) : (readNum s o).1 = true ↔ (strtol s).1 ≠ 0 := by
  simp only [readNum]
  split <;> simp_all

theorem toInt32_clampLong (neg : Bool) (v : Nat)
    (h1 : -(2 ^ 31 : Int) ≤ (if neg then -(v : Int) else (v : Int)))
    (h2 : (if neg then -(v : Int) else (v : Int)) < 2 ^ 31) :
    toInt32 (clampLong neg v) = (if neg then -(v : Int) else (v : Int)) := by
  cases neg
  · simp only [Bool.false_eq_true, if_false] at h1 h2 ⊢
    have : ¬ (2 ^ 63 - 1 < v) := by omega
    simp only [clampLong, toInt32, Bool.false_eq_true, if_false, this]
    omega
  · simp only [if_true] at h1 h2 ⊢
    have : ¬ (2 ^ 63 < v) := by omega
    simp only [clampLong, toInt32, if_true, this, if_false]
    omega

/-- C17 (as stated, refuted): `readNum` on `4294967297` succeeds and consumes the whole
run, whose value is 4294967297, but returns 1: the value is cut to 32 bits. -/
theorem readNum_value_wraps :
    readNum "4294967297".toList 0 = (true, [], 1)
      ∧ digitsVal "4294967297".toList = 4294967297 := by
  decide

/-- C17 (amended): `readNum` succeeds exactly when the cursor is white space, an
optional sign and at least one decimal digit, followed by anything; on success the
cursor becomes what follows the longest such run and, when the value of the run lies
in the range of `int`, the returned value is that value; on failure the cursor and the
`out` parameter are unchanged. -/
theorem readNum_conversion (s : Str) (o : Int) :
    ((readNum s o).1 = true ↔
        ∃ ws sg ds rest, s = ws ++ (sg ++ (ds ++ rest)) ∧ (∀ c ∈ ws, isSpace c = true) ∧
          (sg = [] ∨ sg = ['-'] ∨ sg = ['+']) ∧ ds ≠ [] ∧ (∀ c ∈ ds, c.isDigit = true))
      ∧ (∀ ws sg ds rest, s = ws ++ (sg ++ (ds ++ rest)) → (∀ c ∈ ws, isSpace c = true) →
          (sg = [] ∨ sg = ['-'] ∨ sg = ['+']) → ds ≠ [] → (∀ c ∈ ds, c.isDigit = true) →
          (front rest).isDigit = false →
          (readNum s o).1 = true ∧ (readNum s o).2.1 = rest ∧
            (-(2 ^ 31 : Int) ≤ (if sg = ['-'] then -(digitsVal ds : Int) else digitsVal ds) →
              (if sg = ['-'] then -(digitsVal ds : Int) else (digitsVal ds : Int)) < 2 ^ 31 →
              (readNum s o).2.2 = (if sg = ['-'] then -(digitsVal ds : Int) else digitsVal ds)))
      ∧ ((readNum s o).1 = false → readNum s o = (false, s, o)) := by
  have key : ∀ ws sg ds rest, s = ws ++ (sg ++ (ds ++ rest)) → (∀ c ∈ ws, isSpace c = true) →
      (sg = [] ∨ sg = ['-'] ∨ sg = ['+']) → ds ≠ [] → (∀ c ∈ ds, c.isDigit = true) →
      (front rest).isDigit = false →
      readNum s o = (true, rest, toInt32 (clampLong (decide (sg = ['-'])) (digitsVal ds))) := by
    intro ws sg ds rest hs hws hsg hne hds hrest
    have h := strtol_of_run ws sg ds rest hws hsg hne hds hrest
    have hpos : ws.length + sg.length + ds.length ≠ 0 := by
      have := List.length_pos.mpr hne
      omega
    have hdrop : (ws ++ (sg ++ (ds ++ rest))).drop (ws.length + sg.length + ds.length) = rest := by
      rw [← List.append_assoc, ← List.append_assoc]
      have : ws.length + sg.length + ds.length = (ws ++ sg ++ ds).length := by
        simp only [List.length_append]
      rw [this, List.drop_left]
    subst hs
    simp only [readNum, h, hpos, if_false, hdrop]
  refine ⟨⟨?_, ?_⟩, ?_, ?_⟩
  · intro h
    obtain ⟨ws, sg, ds, rest, h1, h2, h3, h4, h5, -⟩ := strtol_pieces s ((readNum_fst s o).mp h)
    exact ⟨ws, sg, ds, rest, h1, h2, h3, h4, h5⟩
  · rintro ⟨ws, sg, ds, rest, hs, hws, hsg, hne, hds⟩
    have hk := key ws sg (ds ++ rest.takeWhile Char.isDigit) (rest.dropWhile Char.isDigit)
      (by rw [hs, List.append_assoc, List.takeWhile_append_dropWhile]) hws hsg (by simp [hne])
      (by
        intro c hc
        rcases List.mem_append.mp hc with hc | hc
        · exact hds c hc
        · exact List.mem_takeWhile_imp hc)
      (front_dropWhile Char.isDigit (by decide) rest)
    rw [hk]
  · intro ws sg ds rest hs hws hsg hne hds hrest
    have hk := key ws sg ds rest hs hws hsg hne hds hrest
    rw [hk]
    refine ⟨rfl, rfl, ?_⟩
    intro h1 h2
    by_cases hm : sg = ['-']
    · simp only [hm, if_true, decide_True] at h1 h2 ⊢
      exact toInt32_clampLong true _ h1 h2
    · simp only [hm, if_false, decide_False] at h1 h2 ⊢
      exact toInt32_clampLong false _ h1 h2
  · intro h
    simp only [readNum] at h ⊢
    split at h
    · rename_i h0
      simp [h0]
    · simp at h

theorem readNum_conversion_witness :
    (readNum " -42x".toList 7).1 = true ∧ (readNum " -42x".toList 7).2.1 = ['x']
      ∧ (readNum " -42x".toList 7).2.2 = -42 :=
  have h := (readNum_conversion " -42x".toList 7).2.1 [' '] ['-'] "42".toList ['x'] (by decide)
    (by decide) (by decide) (by decide) (by decide) (by decide)
  ⟨h.1, h.2.1, (h.2.2 (by decide) (by decide)).trans (by decide)⟩

/-! ## The cursor is a suffix of the input -/

/-- Whatever `readNum` returns, the cursor it leaves is a suffix of the one it got. -/
theorem readNum_suffix (s : Str) (o : Int) : (readNum s o).2.1 <:+ s := by
  simp only [readNum]
  split
  · exact List.suffix_refl _
  · exact List.drop_suffix _ _

/-- Whatever `readName` returns, the cursor it leaves is a suffix of the one it got. -/
theorem readName_suffix (s out : Str) : (readName s out).2.1 <:+ s := by
  have h := readNum_suffix s 0
  simp only [readName]
  split
  · rename_i s1 _ hn
    rw [hn] at h
    exact h
  · rename_i s1 num hn
    rw [hn] at h
    split
    · exact h
    · exact (List.drop_suffix _ _).trans h

theorem pointerPrefix_suffix (s out s' out' : Str) (ok : Bool)
    (h : pointerPrefix s out = .ret ok s' out') : s' <:+ s := by
  simp only [pointerPrefix] at h
  split at h
  · have h1 := readNum_suffix (s.drop 1) 0
    have h2 : s.drop 1 <:+ s := List.drop_suffix _ _
    split at h
    · rename_i s1 _ hn
      rw [hn] at h1
      simp only [Outcome.ret.injEq] at h
      rw [← h.2.1]; exact h1.trans h2
    · rename_i s1 num hn
      rw [hn] at h1
      split at h
      · simp at h
      · split at h
        · simp only [Outcome.ret.injEq] at h
          rw [← h.2.1]; exact h1.trans h2
        · simp only [Outcome.ret.injEq] at h
          rw [← h.2.1]
          exact (List.drop_suffix _ _).trans (h1.trans h2)
  · simp only [Outcome.ret.injEq] at h
    rw [h.2.1]

theorem scalarCode_suffix (s out s' out' : Str) (ok : Bool)
    (h : scalarCode s out = .ret ok s' out') : s' <:+ s := by
  simp only [scalarCode] at h
  have hd : s.drop 1 <:+ s := List.drop_suffix _ _
  split at h
  · have h1 := readNum_suffix (s.drop 1) 0
    split at h <;> rename_i hn <;> rw [hn] at h1 <;>
      simp only [Outcome.ret.injEq] at h <;> rw [← h.2.1] <;> exact h1.trans hd
  · repeat' split at h
    all_goals simp only [Outcome.ret.injEq] at h
    all_goals rw [← h.2.1]
    all_goals exact hd

theorem typeLoop_suffix (rd : Str → Str → Outcome Str) (stop : Char)
    (hrd : ∀ s o s' o', rd s o = .ret true s' o' → s' <:+ s) :
    ∀ (n : Nat) (s : Str) (acc : List Str) (s' : Str) (names : List Str),
      typeLoop rd stop n s acc = .ret true s' names → s' <:+ s := by
  intro n
  induction n with
  | zero => intro s acc s' names h; simp [typeLoop] at h
  | succ k ih =>
    intro s acc s' names h
    rw [typeLoop] at h
    split at h
    · split at h
      · rename_i s1 name hr
        exact (ih _ _ _ _ h).trans (hrd _ _ _ _ hr)
      · simp at h
      · simp at h
    · simp only [Outcome.ret.injEq, true_and] at h
      rw [h.1]

theorem readTypeBody_suffix (rd : Str → Str → Outcome Str) (n : Nat)
    (hrd : ∀ s o s' o', rd s o = .ret true s' o' → s' <:+ s)
    (s out s' out' : Str) (h : readTypeBody rd n s out = .ret true s' out') : s' <:+ s := by
  simp only [readTypeBody] at h
  have hd : s.drop 1 <:+ s := List.drop_suffix _ _
  split at h
  · split at h
    · simp at h
    · simp at h
    · rename_i s1 names hl
      have h1 := typeLoop_suffix rd 'R' hrd _ _ _ _ _ hl
      have h2 := hrd _ _ _ _ h
      exact h2.trans ((List.drop_suffix _ _).trans (h1.trans hd))
  · split at h
    · split at h
      · simp at h
      · simp at h
      · rename_i s1 names hl
        have h1 := typeLoop_suffix rd 'T' hrd _ _ _ _ _ hl
        simp only [Outcome.ret.injEq, true_and] at h
        rw [← h.1]
        exact (List.drop_suffix _ _).trans (h1.trans hd)
    · split at h
      · exact (scalarCode_suffix _ _ _ _ _ h).trans hd
      · simp only [Outcome.ret.injEq] at h
        rw [← h.2.1]
        exact readName_suffix s out

theorem readTypeFuel_suffix : ∀ (fuel : Nat) (s out s' out' : Str),
    readTypeFuel fuel s out = .ret true s' out' → s' <:+ s := by
  intro fuel
  induction fuel with
  | zero => intro s out s' out' h; simp [readTypeFuel] at h
  | succ f ih =>
    intro s out s' out' h
    rw [readTypeFuel] at h
    split at h
    · simp at h
    · simp at h
    · rename_i s1 o1 hp
      exact (readTypeBody_suffix (readTypeFuel f) f ih _ _ _ _ h).trans
        (pointerPrefix_suffix _ _ _ _ _ hp)

/-- After a successful `readType` the cursor is a suffix of the one it got. -/
theorem readType_suffix (s out s' out' : Str) (h : readType s out = .ret true s' out') :
    s' <:+ s :=
  readTypeFuel_suffix _ s out s' out' h

/-- After a successful `readArg` the cursor is a suffix of the one it got. -/
theorem readArg_suffix (s out s' out' : Str) (h : readArg s out = .ret true s' out') :
    s' <:+ s := by
  simp only [readArg] at h
  split at h
  · simp at h
  · rename_i single s1 ext hlab
    have h1 : s1 <:+ s := by
      split at hlab
      · simp only [Prod.mk.injEq, true_and] at hlab
        rw [← hlab.2.1]; exact List.drop_suffix _ _
      · split at hlab
        · have hn := readName_suffix (s.drop 1) []
          simp only [Prod.mk.injEq] at hlab
          rw [hlab.2.2.1] at hn
          exact hn.trans (List.drop_suffix _ _)
        · simp only [Prod.mk.injEq, true_and] at hlab
          rw [hlab.2.1]
    split at h
    · simp at h
    · rename_i s2 internal hin
      have h2 := readName_suffix s1 []
      rw [hin] at h2
      split at h
      · simp at h
      · simp at h
      · rename_i s3 type ht
        have h3 := readType_suffix _ _ _ _ ht
        simp only [Outcome.ret.injEq, true_and] at h
        rw [← h.1]
        exact h3.trans (h2.trans h1)

/-- C18: when `readNum`, `readName`, `readType` or `readArg` succeeds, the cursor it
leaves is a proper suffix of the cursor it got: the input with a prefix removed, and
strictly shorter. -/
theorem readers_proper_suffix :
    (∀ (s s' : Str) (o v : Int), readNum s o = (true, s', v) →
        s' <:+ s ∧ s'.length < s.length)
      ∧ (∀ (s out s' out' : Str), readName s out = (true, s', out') →
        s' <:+ s ∧ s'.length < s.length)
      ∧ (∀ (s out s' out' : Str), readType s out = .ret true s' out' →
        s' <:+ s ∧ s'.length < s.length)
      ∧ (∀ (s out s' out' : Str), readArg s out = .ret true s' out' →
        s' <:+ s ∧ s'.length < s.length) := by
  refine ⟨?_, ?_, ?_, ?_⟩
  · intro s s' o v h
    have h1 := readNum_suffix s o
    rw [h] at h1
    exact ⟨h1, readNum_length s s' o v h⟩
  · intro s out s' out' h
    have h1 := readName_suffix s out
    rw [h] at h1
    exact ⟨h1, readName_length s s' out out' h⟩
  · intro s out s' out' h
    exact ⟨readType_suffix s out s' out' h, readType_length s out s' out' h⟩
  · intro s out s' out' h
    exact ⟨readArg_suffix s out s' out' h, readArg_length s out s' out' h⟩

theorem readers_proper_suffix_witness :
    ("x".toList <:+ "12x".toList ∧ "x".toList.length < "12x".toList.length)
      ∧ ("_".toList <:+ "3foo_".toList ∧ "_".toList.length < "3foo_".toList.length)
      ∧ ("T".toList <:+ "P2TsvT".toList ∧ "T".toList.length < "P2TsvT".toList.length)
      ∧ ("_".toList <:+ "E2at1xsb_".toList ∧ "_".toList.length < "E2at1xsb_".toList.length) :=
  ⟨readers_proper_suffix.1 "12x".toList "x".toList 0 12 (by decide),
   readers_proper_suffix.2.1 "3foo_".toList [] "_".toList "foo".toList (by decide),
   readers_proper_suffix.2.2.1 "P2TsvT".toList [] "T".toList "**Void".toList (by decide),
   readers_proper_suffix.2.2.2 "E2at1xsb_".toList [] "_".toList "at x: Bool".toList
     (by decide)⟩

/-! ## Termination -/

theorem functionName_ne_exhausted (s out : Str) : functionName s out ≠ .halt .exhausted := by
  intro h
  simp only [functionName] at h
  split at h
  · split at h
    · rename_i h' ht
      simp only [Outcome.halt.injEq] at h
      rw [h] at ht
      exact readType_ne_exhausted _ _ ht
    · simp at h
    · simp at h
  · split at h
    · split at h
      · rename_i h' ht
        simp only [Outcome.halt.injEq] at h
        rw [h] at ht
        exact readType_ne_exhausted _ _ ht
      · simp at h
      · simp at h
    · simp at h

theorem functionSuffix_ne_exhausted (s out : Str) :
    functionSuffix s out ≠ .halt .exhausted := by
  intro h
  simp only [functionSuffix] at h
  split at h
  · rename_i h' hr
    simp only [Outcome.halt.injEq] at h
    rw [h] at hr
    split at hr
    · split at hr
      · rename_i h'' ht
        simp only [Outcome.halt.injEq] at hr
        rw [hr] at ht
        exact readType_ne_exhausted _ _ ht
      · simp at hr
      · simp at hr
    · simp at hr
  · simp at h
  · split at h <;> simp at h

theorem demangleFunction_ne_exhausted (s out : Str) :
    demangleFunction s out ≠ .halt .exhausted := by
  intro h
  simp only [demangleFunction] at h
  split at h
  · split at h
    · rename_i h' ht
      simp only [Outcome.halt.injEq] at h
      rw [h] at ht
      exact readType_ne_exhausted _ _ ht
    · simp at h
    · simp at h
  · split at h
    · rename_i h' hf
      simp only [Outcome.halt.injEq] at h
      rw [h] at hf
      exact functionName_ne_exhausted _ _ hf
    · simp at h
    · split at h
      · rename_i h' hl
        simp only [Outcome.halt.injEq] at h
        rw [h] at hl
        exact argLoop_ne_exhausted _ _ _ (Nat.lt_succ_self _) hl
      · simp at h
      · exact functionSuffix_ne_exhausted _ _ h

/-- `demangle` never uses up the budget of its loops and recursion. -/
theorem demangle_ne_exhausted (ndebug : Bool) (symbol out : Str) :
    demangle ndebug symbol out ≠ .halt .exhausted := by
  intro h
  simp only [demangle] at h
  split at h
  · simp at h
  · split at h
    · simp only [demangleClosure] at h
      split at h <;> simp at h
    · split at h
      · exact demangleFunction_ne_exhausted _ _ h
      · split at h
        · exact readType_ne_exhausted _ _ h
        · simp at h

/-- C19: `demangle` terminates on every input: the model never runs out of its budget,
which is the length of the cursor plus one.  Each iteration of the type loops and of
the argument loop either fails or leaves a strictly shorter cursor, and `readType` on a
cursor calls itself only on strictly shorter cursors: its result is the same with any
reader that agrees with `readType` on the strictly shorter cursors. -/
theorem demangle_terminates (ndebug : Bool) (symbol out : Str) :
    demangle ndebug symbol out ≠ .halt .exhausted
      ∧ (∀ (s o s' o' : Str), readType s o = .ret true s' o' → s'.length < s.length)
      ∧ (∀ (s o s' o' : Str), readArg s o = .ret true s' o' → s'.length < s.length)
      ∧ (∀ (rd : Str → Str → Outcome Str) (s o : Str),
          (∀ s' o', s'.length < s.length → rd s' o' = readType s' o') →
          readType s o =
            match pointerPrefix s o with
            | .halt h => .halt h
            | .ret false s1 o1 => .ret false s1 o1
            | .ret true s1 o1 => readTypeBody rd s1.length s1 o1) := by
  refine ⟨demangle_ne_exhausted ndebug symbol out, readType_length, readArg_length, ?_⟩
  intro rd s o hrd
  rw [readType_unfold]
  cases hp : pointerPrefix s o with
  | halt h => rfl
  | ret ok s1 o1 =>
    cases ok with
    | false => rfl
    | true =>
      have h3 := pointerPrefix_length _ _ _ _ _ hp
      exact readTypeBody_congr readType rd s1.length s1.length s1 o1 readType_length
        (fun s' o' hs => (hrd s' o' (by omega)).symm) (le_refl _) (le_refl _)

theorem demangle_terminates_witness :
    (demangle true [] [] ≠ .halt .exhausted ∧ demangle true [] [] = .ret false [] [])
      ∧ (demangle true "_W".toList [] ≠ .halt .exhausted
          ∧ demangle true "_W".toList [] = .ret false [] [])
      ∧ (demangle true "_WTFsvsb".toList [] ≠ .halt .exhausted
          ∧ demangle true "_WTFsvsb".toList [] = .ret false [] "(".toList)
      ∧ (demangle true "_WTtsvsb".toList [] ≠ .halt .exhausted
          ∧ demangle true "_WTtsvsb".toList [] = .ret false [] "(".toList)
      ∧ (demangle true "_WF3fooS1xsb".toList [] ≠ .halt .exhausted
          ∧ demangle true "_WF3fooS1xsb".toList [] = .ret false [] "foo(".toList)
      ∧ "sb".toList.length < "P1Tsvsb".toList.length :=
  ⟨⟨(demangle_terminates true [] []).1, by decide⟩,
   ⟨(demangle_terminates true "_W".toList []).1, by decide⟩,
   ⟨(demangle_terminates true "_WTFsvsb".toList []).1, by decide⟩,
   ⟨(demangle_terminates true "_WTtsvsb".toList []).1, by decide⟩,
   ⟨(demangle_terminates true "_WF3fooS1xsb".toList []).1, by decide⟩,
   (demangle_terminates true [] []).2.1 "P1Tsvsb".toList [] "sb".toList "*Void".toList
     (by decide)⟩

end shiba
